import Mathlib

/-!
# LiteSift `application/match.cpp`: command-line orchestration

A shallow embedding of `src/application/match.cpp`.  The program parses its
options with boost::program_options, checks the two input paths, builds one
PopSift engine, enqueues two images, resolves both jobs, matches the feature
sets and tears everything down.

Everything the file calls but does not define (the option parser, the
filesystem, the image decoders, the configuration setters, the engine) is
an input of the model: the command line is given as the list of items the
option parser recognises, and a `World` record fixes how the collaborators
answer.  All observable actions are recorded, in program order, in a trace
of `Event`s; the way the process ends is an `Outcome`.
-/

namespace LiteSift

/-! ## Exit statuses -/

/-- The value of `EXIT_SUCCESS`. -/
def EXIT_SUCCESS : Int := 0

/-- The value of `EXIT_FAILURE`. -/
def EXIT_FAILURE : Int := 1

/-- The status the parent process observes for `exit(code)` or `return code`
from `main`: the low eight bits of the code. -/
def exitStatus (code : Int) : Int := code % 256

/-! ## Command line -/

/-- A float option value that the parser accepted, kept as its source text:
the program only forwards it to a setter. -/
structure FloatVal where
  text : String
  deriving DecidableEq

/-- One item of the command line as `parse_command_line` sees it: an
occurrence of one of the declared options together with its converted value,
or a token the parser rejects (unknown option, value that does not convert,
missing value, stray positional argument). -/
inductive Arg where
  | help
  | verbose
  | log
  | left (s : String)
  | right (s : String)
  | octaves (n : Int)
  | levels (n : Int)
  | sigma (f : FloatVal)
  | threshold (f : FloatVal)
  | edgeThreshold (f : FloatVal)
  | edgeLimit (f : FloatVal)
  | downsampling (f : FloatVal)
  | initialBlur (f : FloatVal)
  | gaussMode (s : String)
  | descMode (s : String)
  | popsiftMode
  | vlfeatMode
  | opencvMode
  | directScaling
  | normMulti (i : Int)
  | normMode (s : String)
  | rootSift
  | filterMaxExtrema (i : Int)
  | filterGrid (i : Int)
  | filterSort (s : String)
  | printGaussTables
  | printDevInfo
  | printTimeInfo
  | writeAsUchar
  | dontWrite
  | pgmreadLoading
  | rejected (token : String)
  deriving DecidableEq

/-- The `variables_map` after `store`: a `bool_switch` always has a value
(`false` when defaulted, `true` when given), `help` records whether it was
counted, every other option is present or absent. -/
structure VariablesMap where
  help : Bool := false
  verbose : Bool := false
  log : Bool := false
  left : Option String := none
  right : Option String := none
  octaves : Option Int := none
  levels : Option Int := none
  sigma : Option FloatVal := none
  threshold : Option FloatVal := none
  edgeThreshold : Option FloatVal := none
  edgeLimit : Option FloatVal := none
  downsampling : Option FloatVal := none
  initialBlur : Option FloatVal := none
  gaussMode : Option String := none
  descMode : Option String := none
  popsiftMode : Bool := false
  vlfeatMode : Bool := false
  opencvMode : Bool := false
  directScaling : Bool := false
  normMulti : Option Int := none
  normMode : Option String := none
  rootSift : Bool := false
  filterMaxExtrema : Option Int := none
  filterGrid : Option Int := none
  filterSort : Option String := none
  printGaussTables : Bool := false
  printDevInfo : Bool := false
  printTimeInfo : Bool := false
  writeAsUchar : Bool := false
  dontWrite : Bool := false
  pgmreadLoading : Bool := false
  deriving DecidableEq

/-- The map before any option is stored. -/
def VariablesMap.empty : VariablesMap := {}

/-- Record a switch; a second occurrence is the parser error
`multiple_occurrences`. -/
def setSwitch (name : String) (already : Bool) (vm : VariablesMap) :
    Except String VariablesMap :=
  if already then .error ("multiple occurrences of " ++ name) else .ok vm

/-- Record a value; a second occurrence is the parser error
`multiple_occurrences`. -/
def setValue {α : Type} (name : String) (old : Option α) (vm : VariablesMap) :
    Except String VariablesMap :=
  if old.isSome then .error ("multiple occurrences of " ++ name) else .ok vm

/-- Storing one parsed item into the map. -/
def storeArg (vm : VariablesMap) : Arg → Except String VariablesMap
  | .help => setSwitch "help" vm.help { vm with help := true }
  | .verbose => setSwitch "verbose" vm.verbose { vm with verbose := true }
  | .log => setSwitch "log" vm.log { vm with log := true }
  | .left s => setValue "left" vm.left { vm with left := some s }
  | .right s => setValue "right" vm.right { vm with right := some s }
  | .octaves n => setValue "octaves" vm.octaves { vm with octaves := some n }
  | .levels n => setValue "levels" vm.levels { vm with levels := some n }
  | .sigma f => setValue "sigma" vm.sigma { vm with sigma := some f }
  | .threshold f => setValue "threshold" vm.threshold { vm with threshold := some f }
  | .edgeThreshold f =>
      setValue "edge-threshold" vm.edgeThreshold { vm with edgeThreshold := some f }
  | .edgeLimit f => setValue "edge-limit" vm.edgeLimit { vm with edgeLimit := some f }
  | .downsampling f =>
      setValue "downsampling" vm.downsampling { vm with downsampling := some f }
  | .initialBlur f =>
      setValue "initial-blur" vm.initialBlur { vm with initialBlur := some f }
  | .gaussMode s => setValue "gauss-mode" vm.gaussMode { vm with gaussMode := some s }
  | .descMode s => setValue "desc-mode" vm.descMode { vm with descMode := some s }
  | .popsiftMode => setSwitch "popsift-mode" vm.popsiftMode { vm with popsiftMode := true }
  | .vlfeatMode => setSwitch "vlfeat-mode" vm.vlfeatMode { vm with vlfeatMode := true }
  | .opencvMode => setSwitch "opencv-mode" vm.opencvMode { vm with opencvMode := true }
  | .directScaling =>
      setSwitch "direct-scaling" vm.directScaling { vm with directScaling := true }
  | .normMulti i => setValue "norm-multi" vm.normMulti { vm with normMulti := some i }
  | .normMode s => setValue "norm-mode" vm.normMode { vm with normMode := some s }
  | .rootSift => setSwitch "root-sift" vm.rootSift { vm with rootSift := true }
  | .filterMaxExtrema i =>
      setValue "filter-max-extrema" vm.filterMaxExtrema { vm with filterMaxExtrema := some i }
  | .filterGrid i => setValue "filter-grid" vm.filterGrid { vm with filterGrid := some i }
  | .filterSort s => setValue "filter-sort" vm.filterSort { vm with filterSort := some s }
  | .printGaussTables =>
      setSwitch "print-gauss-tables" vm.printGaussTables { vm with printGaussTables := true }
  | .printDevInfo =>
      setSwitch "print-dev-info" vm.printDevInfo { vm with printDevInfo := true }
  | .printTimeInfo =>
      setSwitch "print-time-info" vm.printTimeInfo { vm with printTimeInfo := true }
  | .writeAsUchar =>
      setSwitch "write-as-uchar" vm.writeAsUchar { vm with writeAsUchar := true }
  | .dontWrite => setSwitch "dont-write" vm.dontWrite { vm with dontWrite := true }
  | .pgmreadLoading =>
      setSwitch "pgmread-loading" vm.pgmreadLoading { vm with pgmreadLoading := true }
  | .rejected token => .error ("cannot parse " ++ token)

/-- Storing the items one after the other, starting from `vm`. -/
def storeFrom (vm : VariablesMap) : List Arg → Except String VariablesMap
  | [] => .ok vm
  | a :: rest =>
    match storeArg vm a with
    | .error what => .error what
    | .ok vm2 => storeFrom vm2 rest

/-- The call `store(parse_command_line(argc, argv, all), vm)` on a fresh map:
either the map, or the text of the `boost::program_options::error` thrown. -/
def store (args : List Arg) : Except String VariablesMap :=
  storeFrom VariablesMap.empty args

/-! ## Configuration and process-wide flags -/

/-- The setters of `popsift::Config` that the notifiers call, with their
arguments. -/
inductive Setter where
  | setVerbose
  | setLogModeAll
  | setSigma (f : FloatVal)
  | setThreshold (f : FloatVal)
  | setEdgeLimit (f : FloatVal)
  | setDownsampling (f : FloatVal)
  | setInitialBlur (f : FloatVal)
  | setGaussMode (s : String)
  | setDescMode (s : String)
  | setModePopSift
  | setModeVLFeat
  | setModeOpenCV
  | setScalingModeDirect
  | setNormalizationMultiplier (i : Int)
  | setNormModeString (s : String)
  | setNormModeRootSift
  | setFilterMaxExtrema (i : Int)
  | setFilterGridSize (i : Int)
  | setFilterSorting (s : String)
  | setPrintGaussTables
  deriving DecidableEq

/-- The part of `popsift::Config` this file touches: the two public fields
written directly, and the setter calls that returned so far (oldest first). -/
structure Config where
  octaves : Int
  levels : Int
  calls : List Setter
  deriving DecidableEq

/-- The five file-scope flags. -/
structure Flags where
  print_dev_info : Bool := false
  print_time_info : Bool := false
  write_as_uchar : Bool := false
  dont_write : Bool := false
  pgmread_loading : Bool := false
  deriving DecidableEq

/-- What `parseargs` reads and writes through its reference parameters and
the file-scope flags. -/
structure PState where
  config : Config
  lFile : String
  rFile : String
  flags : Flags
  deriving DecidableEq

/-! ## Exceptions, events, outcomes -/

/-- A C++ exception, classified by which handler of this file catches it. -/
inductive Exn where
  | poError (what : String)
  | stdException (what : String)
  | other
  deriving DecidableEq

/-- The engine mode passed to the PopSift constructor. -/
inductive ProcessingMode where
  | ExtractingMode
  | MatchingMode
  deriving DecidableEq

/-- A decoded grayscale image: width, height and the pixel bytes. -/
structure Image where
  w : Int
  h : Int
  data : List Nat
  deriving DecidableEq

/-- Texts written to the standard streams. -/
inductive Msg where
  | version
  | usage
  | error (what : String)
  | pair (lFile rFile : String)
  | what (text : String)
  | notRegular (path : String)
  | couldNotLoad (path : String)
  | failedConverting (path : String)
  | loading (w h : Int) (path : String)
  | featureCount (job : Nat)
  | descriptorCount (job : Nat)
  deriving DecidableEq

/-- Observable actions, in program order.  Jobs are numbered by the engine
in the order of enqueueing; the feature collection of a job carries the
job number. -/
inductive Event where
  | cudaReset
  | out (m : Msg)
  | err (m : Msg)
  | fsExists (path : String)
  | fsIsRegular (path : String)
  | deviceSet (print : Bool)
  | devicePrint
  | construct (engine : Nat) (config : Config) (mode : ProcessingMode)
  | enqueue (engine : Nat) (job : Nat) (img : Image)
  | imgClear (job : Nat)
  | deleteBuffer (job : Nat)
  | getDev (job : Option Nat)
  | matchFeatures (l r : Nat)
  | release (features : Nat)
  | uninit (engine : Nat)
  deriving DecidableEq

/-- How the process ends. -/
inductive Outcome where
  | exited (code : Int)
  | returned (code : Int)
  | terminated
  | undefinedBehaviour
  deriving DecidableEq

/-- Whether the process ended with a failure (non-zero) status.  An
uncaught exception aborts the process, which is a failure status; undefined
behaviour promises nothing. -/
def Outcome.isFailure : Outcome → Bool
  | .exited code => exitStatus code != 0
  | .returned code => exitStatus code != 0
  | .terminated => true
  | .undefinedBehaviour => false

/-- Whether the process ended with the success status. -/
def Outcome.isSuccess : Outcome → Bool
  | .exited code => exitStatus code == 0
  | .returned code => exitStatus code == 0
  | .terminated => false
  | .undefinedBehaviour => false

/-! ## Computations with a trace -/

/-- Control state after a piece of code ran. -/
inductive Ctl (α : Type) where
  | ok (a : α)
  | raise (e : Exn)
  | halt (o : Outcome)
  deriving DecidableEq

/-- A piece of code that ran: what it did and how it left. -/
structure Run (α : Type) where
  trace : List Event
  ctl : Ctl α
  deriving DecidableEq

/-- Normal return. -/
def Run.pure {α : Type} (a : α) : Run α := ⟨[], .ok a⟩

/-- Sequencing: the second part runs only when the first returned. -/
def Run.bind {α β : Type} (r : Run α) (f : α → Run β) : Run β :=
  match r.ctl with
  | .ok a => ⟨r.trace ++ (f a).trace, (f a).ctl⟩
  | .raise e => ⟨r.trace, .raise e⟩
  | .halt o => ⟨r.trace, .halt o⟩

instance : Monad Run where
  pure := Run.pure
  bind := Run.bind

/-- One observable action. -/
def emit (e : Event) : Run Unit := ⟨[e], .ok ()⟩

/-- The end of the process. -/
def halt {α : Type} (o : Outcome) : Run α := ⟨[], .halt o⟩

/-- A `try` block with one handler; the handler declines (`none`) the
exceptions whose type it does not match. -/
def tryCatch {α : Type} (body : Run α) (handler : Exn → Option (Run α)) : Run α :=
  match body.ctl with
  | .raise e =>
    match handler e with
    | some h => ⟨body.trace ++ h.trace, h.ctl⟩
    | none => body
  | _ => body

/-- Lifting a result without trace: an error is a thrown exception. -/
def liftExcept {α : Type} : Except Exn α → Run α
  | .ok a => ⟨[], .ok a⟩
  | .error e => ⟨[], .raise e⟩

/-! ## The collaborators -/

/-- What the filesystem says about a path: it does not exist, it is a
regular file, a directory or something else, or its status cannot be read
(an error other than not-found, such as a denied search permission or a
symbolic-link loop). -/
inductive FileKind where
  | missing
  | regular
  | directory
  | other
  | statError
  deriving DecidableEq

/-- What the DevIL decoder does with a file: `img.Load` fails, `img.Load`
succeeds and `img.Convert(IL_LUMINANCE)` fails, or both succeed. -/
inductive DevilResult where
  | loadFails
  | convertFails
  | loaded (img : Image)
  deriving DecidableEq

/-- The answers of everything `match.cpp` calls but does not define. -/
structure World where
  /-- Whether the file was compiled with `USE_DEVIL`. -/
  USE_DEVIL : Bool
  /-- The default-constructed `popsift::Config`. -/
  defaultConfig : Config
  /-- A setter of the configuration returns (`none`) or throws. -/
  setterThrows : Setter → Option Exn
  /-- The filesystem status of a path. -/
  fileKind : String → FileKind
  /-- The DevIL decoder on a path. -/
  ilLoad : String → DevilResult
  /-- The function `readPGMfile`: `none` is the null pointer. -/
  readPGMfile : String → Option Image

/-- The call `boost::filesystem::exists`: it throws `filesystem_error` (a
`std::exception`) when the status cannot be read. -/
def World.fsExists (w : World) (path : String) : Except Exn Bool :=
  match w.fileKind path with
  | .statError => .error (.stdException "boost::filesystem::status")
  | .missing => .ok false
  | _ => .ok true

/-- The call `boost::filesystem::is_regular_file`: it throws
`filesystem_error` when the status cannot be read. -/
def World.is_regular_file (w : World) (path : String) : Except Exn Bool :=
  match w.fileKind path with
  | .statError => .error (.stdException "boost::filesystem::status")
  | .regular => .ok true
  | _ => .ok false

/-- The path exists and is not a regular file. -/
def World.rejects (w : World) (path : String) : Bool :=
  match w.fileKind path with
  | .directory => true
  | .other => true
  | _ => false

/-- The path does not exist or is a regular file. -/
def World.passes (w : World) (path : String) : Bool :=
  match w.fileKind path with
  | .missing => true
  | .regular => true
  | _ => false

/-- The image `process_image` obtains for the path, if any: with DevIL (and
without `--pgmread-loading`) the file must load and convert, otherwise
`readPGMfile` must return a buffer. -/
def World.image (w : World) (flags : Flags) (path : String) : Option Image :=
  if w.USE_DEVIL && !flags.pgmread_loading then
    match w.ilLoad path with
    | .loaded img => some img
    | _ => none
  else
    w.readPGMfile path

/-! ## `parseargs` -/

/-- A call of a configuration setter from a notifier. -/
def callSetter (w : World) (s : Setter) (st : PState) : Except Exn PState :=
  match w.setterThrows s with
  | some e => .error e
  | none => .ok { st with config := { st.config with calls := st.config.calls ++ [s] } }

/-- The notifier of a `bool_switch` of the form
`[&](bool b) { if(b) config.setter(); }`. -/
def onSwitch (w : World) (b : Bool) (s : Setter) (st : PState) : Except Exn PState :=
  if b then callSetter w s st else .ok st

/-- The notifier of a value option of the form
`[&](T v) { config.setter(v); }`; it runs only when the option has a value. -/
def onValue {α : Type} (w : World) (v : Option α) (s : α → Setter) (st : PState) :
    Except Exn PState :=
  match v with
  | some a => callSetter w (s a) st
  | none => .ok st

/-- An option bound to a variable (`value<T>(&x)`): the variable is written
only when the option has a value. -/
def storeTo {α : Type} (v : Option α) (write : α → PState → PState) (st : PState) : PState :=
  match v with
  | some a => write a st
  | none => st

/-- The second half of `notify(vm)`: the notify action of every option that
has a value, in the order of the map (by option name). -/
def runNotifiers (w : World) (vm : VariablesMap) (st : PState) : Except Exn PState := do
  let st ← onValue w vm.descMode Setter.setDescMode st
  let st ← onSwitch w vm.directScaling Setter.setScalingModeDirect st
  let st := { st with flags := { st.flags with dont_write := vm.dontWrite } }
  let st ← onValue w vm.downsampling Setter.setDownsampling st
  let st ← onValue w vm.edgeLimit Setter.setEdgeLimit st
  let st ← onValue w vm.edgeThreshold Setter.setEdgeLimit st
  let st ← onValue w vm.filterGrid Setter.setFilterGridSize st
  let st ← onValue w vm.filterMaxExtrema Setter.setFilterMaxExtrema st
  let st ← onValue w vm.filterSort Setter.setFilterSorting st
  let st ← onValue w vm.gaussMode Setter.setGaussMode st
  let st ← onValue w vm.initialBlur Setter.setInitialBlur st
  let st := storeTo vm.left (fun s st => { st with lFile := s }) st
  let st := storeTo vm.levels (fun n st => { st with config := { st.config with levels := n } }) st
  let st ← onSwitch w vm.log Setter.setLogModeAll st
  let st ← onValue w vm.normMode Setter.setNormModeString st
  let st ← onValue w vm.normMulti Setter.setNormalizationMultiplier st
  let st := storeTo vm.octaves (fun n st => { st with config := { st.config with octaves := n } }) st
  let st ← onSwitch w vm.opencvMode Setter.setModeOpenCV st
  let st := { st with flags := { st.flags with pgmread_loading := vm.pgmreadLoading } }
  let st ← onSwitch w vm.popsiftMode Setter.setModePopSift st
  let st := { st with flags := { st.flags with print_dev_info := vm.printDevInfo } }
  let st ← onSwitch w vm.printGaussTables Setter.setPrintGaussTables st
  let st := { st with flags := { st.flags with print_time_info := vm.printTimeInfo } }
  let st := storeTo vm.right (fun s st => { st with rFile := s }) st
  let st ← onSwitch w vm.rootSift Setter.setNormModeRootSift st
  let st ← onValue w vm.sigma Setter.setSigma st
  let st ← onValue w vm.threshold Setter.setThreshold st
  let st ← onSwitch w vm.verbose Setter.setVerbose st
  let st ← onSwitch w vm.vlfeatMode Setter.setModeVLFeat st
  let st := { st with flags := { st.flags with write_as_uchar := vm.writeAsUchar } }
  return st

/-- The call `notify(vm)`: first every required option must have a value
(else `required_option`, a `boost::program_options::error`), then the notify
actions run. -/
def notify (w : World) (vm : VariablesMap) (st : PState) : Except Exn PState :=
  if vm.left.isNone then .error (.poError "the option --left is required but missing")
  else if vm.right.isNone then .error (.poError "the option --right is required but missing")
  else runNotifiers w vm st

/-- The function `parseargs` (lines 41-136). -/
def parseargs (w : World) (args : List Arg) (st : PState) : Run PState :=
  tryCatch
    (do
      let vm ← liftExcept ((store args).mapError Exn.poError)
      if vm.help then
        emit (.out .usage)
        halt (.exited 1)
      liftExcept (notify w vm st))
    (fun e =>
      match e with
      | .poError what => some (do
          emit (.err (.error what))
          emit (.err .usage)
          halt (.exited EXIT_FAILURE))
      | _ => none)

/-! ## `process_image` -/

/-- The function `process_image` (lines 159-203) on the engine `engine`,
whose next job number is `next`.  Returns the job handle (`none` is the null
pointer) and the next job number of the engine. -/
def process_image (w : World) (flags : Flags) (inputFile : String) (engine next : Nat) :
    Run (Option Nat × Nat) :=
  if w.USE_DEVIL && !flags.pgmread_loading then
    match w.ilLoad inputFile with
    | .loadFails => do
        emit (.err (.couldNotLoad inputFile))
        return (none, next)
    | .convertFails => do
        emit (.err (.failedConverting inputFile))
        halt (.exited (-1))
    | .loaded img => do
        emit (.out (.loading img.w img.h inputFile))
        emit (.enqueue engine next img)
        emit (.imgClear next)
        return (some next, next + 1)
  else
    match w.readPGMfile inputFile with
    | none => halt (.exited EXIT_FAILURE)
    | some img => do
        emit (.enqueue engine next img)
        emit (.deleteBuffer next)
        return (some next, next + 1)

/-! ## `main` -/

/-- The statement `T* f = job->getDev();` followed by the two count lines:
dereferencing the null handle is undefined behaviour. -/
def getDev (job : Option Nat) : Run Nat :=
  match job with
  | none => do
      emit (.getDev none)
      halt .undefinedBehaviour
  | some j => do
      emit (.getDev (some j))
      emit (.out (.featureCount j))
      emit (.out (.descriptorCount j))
      return j

/-- One of the two input checks of `main` (lines 224-229 and 231-236).  The
two filesystem calls stand outside every `try` block. -/
def checkInput (w : World) (path : String) : Run Unit := do
  emit (.fsExists path)
  let found ← liftExcept (w.fsExists path)
  if found then
    emit (.fsIsRegular path)
    let regular ← liftExcept (w.is_regular_file path)
    if !regular then
      emit (.out (.notRegular path))
      halt (.returned EXIT_FAILURE)

/-- The state `main` passes to `parseargs`: the default configuration, two
empty strings, and the flags as initialised at file scope. -/
def initialState (w : World) : PState :=
  { config := w.defaultConfig, lFile := "", rFile := "", flags := {} }

/-- The function `main` from line 238 on, after both input checks passed:
device properties, the engine, the two images, the two feature
collections, the match and the teardown. -/
def mainEngine (w : World) (st : PState) : Run Int := do
  emit (.deviceSet st.flags.print_dev_info)
  if st.flags.print_dev_info then
    emit .devicePrint
  emit (.construct 0 st.config .MatchingMode)
  let (lJob, next) ← process_image w st.flags st.lFile 0 0
  let (rJob, _) ← process_image w st.flags st.rFile 0 next
  let lFeatures ← getDev lJob
  let rFeatures ← getDev rJob
  emit (.matchFeatures lFeatures rFeatures)
  emit (.release lFeatures)
  emit (.release rFeatures)
  emit (.uninit 0)
  return EXIT_SUCCESS

/-- The function `main` from line 224 on, after `parseargs` returned: the
two input checks, then the rest. -/
def mainAfterParse (w : World) (st : PState) : Run Int := do
  checkInput w st.lFile
  checkInput w st.rFile
  mainEngine w st

/-- The function `main` (lines 205-263) as a computation. -/
def mainRun (w : World) (args : List Arg) : Run Int := do
  emit .cudaReset
  emit (.out .version)
  let st ← tryCatch
    (do
      let st ← parseargs w args (initialState w)
      emit (.out (.pair st.lFile st.rFile))
      return st)
    (fun e =>
      match e with
      | .poError what => some (do
          emit (.out (.what what))
          halt (.returned EXIT_SUCCESS))
      | .stdException what => some (do
          emit (.out (.what what))
          halt (.returned EXIT_SUCCESS))
      | .other => none)
  mainAfterParse w st

/-- How a run of `main` ends: its return value is the exit code, and an
exception that leaves `main` terminates the process. -/
def outcomeOf : Ctl Int → Outcome
  | .ok code => .returned code
  | .raise _ => .terminated
  | .halt o => o

/-- A whole run of the program: the trace and the outcome. -/
def main (w : World) (args : List Arg) : List Event × Outcome :=
  ((mainRun w args).trace, outcomeOf (mainRun w args).ctl)

/-! ## Reading traces -/

/-- A query of the input-validation step. -/
def Event.isInputCheck : Event → Bool
  | .fsExists _ => true
  | .fsIsRegular _ => true
  | _ => false

/-- The construction of an engine. -/
def Event.isConstruct : Event → Bool
  | .construct _ _ _ => true
  | _ => false

/-- A submission of an image to an engine. -/
def Event.isEnqueue : Event → Bool
  | .enqueue _ _ _ => true
  | _ => false

/-- The teardown of an engine. -/
def Event.isUninit : Event → Bool
  | .uninit _ => true
  | _ => false

/-- The match call. -/
def Event.isMatch : Event → Bool
  | .matchFeatures _ _ => true
  | _ => false

/-- The submission that created job `job`. -/
def Event.isEnqueueOf (job : Nat) : Event → Bool
  | .enqueue _ j _ => j == job
  | _ => false

/-- The image buffer passed to the enqueue of job `job` is freed
(`delete [] image_data`) or cleared (`img.Clear()`). -/
def Event.isFreeOf (job : Nat) : Event → Bool
  | .imgClear j => j == job
  | .deleteBuffer j => j == job
  | _ => false

/-- The handle of job `job` is resolved into its feature collection. -/
def Event.isGetDevOf (job : Nat) : Event → Bool
  | .getDev (some j) => j == job
  | _ => false

/-- A feature collection is released. -/
def Event.isRelease : Event → Bool
  | .release _ => true
  | _ => false

/-- The operations on job handles and feature collections that the
orchestration issues: enqueue, getDev, match. -/
def Event.isJobOp : Event → Bool
  | .enqueue _ _ _ => true
  | .getDev _ => true
  | .matchFeatures _ _ => true
  | _ => false

/-- Any event that concerns the engine, a job, a feature collection or an
image buffer handed to the engine. -/
def Event.isEngineLevel : Event → Bool
  | .construct _ _ _ => true
  | .enqueue _ _ _ => true
  | .imgClear _ => true
  | .deleteBuffer _ => true
  | .getDev _ => true
  | .matchFeatures _ _ => true
  | .release _ => true
  | .uninit _ => true
  | _ => false

/-- Every event satisfying `q` has an event satisfying `p` strictly before
it in the trace. -/
def precededBy (p q : Event → Bool) : List Event → Bool
  | [] => true
  | e :: rest => !q e && (p e || precededBy p q rest)

/-- No event satisfying `q` occurs strictly after an event satisfying `p`. -/
def noneAfter (p q : Event → Bool) : List Event → Bool
  | [] => true
  | e :: rest => (!p e || rest.all (fun x => !q x)) && noneAfter p q rest

/-- Every event satisfying `p` is immediately followed by one satisfying
`q`. -/
def directlyFollowedBy (p q : Event → Bool) : List Event → Bool
  | [] => true
  | [e] => !p e
  | e :: f :: rest => (!p e || q f) && directlyFollowedBy p q (f :: rest)

/-- The number of events satisfying `p`. -/
def occurrences (p : Event → Bool) (tr : List Event) : Nat :=
  (tr.filter p).length

/-- Two states that differ at most in the list of setter calls. -/
def sameButCalls (st st2 : PState) : Prop :=
  st2.lFile = st.lFile ∧ st2.rFile = st.rFile ∧ st2.flags = st.flags ∧
    st2.config.octaves = st.config.octaves ∧ st2.config.levels = st.config.levels

/-! ## Sample worlds -/

/-- A build without DevIL in which every path is a regular file and no
setter throws; `a.pgm` holds a 2 x 3 image, every other file a 1 x 2
image. -/
def pgmWorld : World where
  USE_DEVIL := false
  defaultConfig := { octaves := -1, levels := 3, calls := [] }
  setterThrows := fun _ => none
  fileKind := fun _ => .regular
  ilLoad := fun _ => .loadFails
  readPGMfile := fun p =>
    if p = "a.pgm" then some { w := 2, h := 3, data := [10, 20, 30, 40, 50, 60] }
    else some { w := 1, h := 2, data := [7, 9] }

/-- A build with DevIL in which every path is a regular file: `left.jpg`
cannot be loaded by DevIL, every other file decodes to a 2 x 2 image. -/
def devilWorld : World where
  USE_DEVIL := true
  defaultConfig := { octaves := -1, levels := 3, calls := [] }
  setterThrows := fun _ => none
  fileKind := fun _ => .regular
  ilLoad := fun p =>
    if p = "left.jpg" then .loadFails else .loaded { w := 2, h := 2, data := [1, 2, 3, 4] }
  readPGMfile := fun _ => none

/-- A build without DevIL in which the path `absent.pgm` does not exist (so
`readPGMfile` returns the null pointer for it), `dir` is a directory, the
status of `locked/x.pgm` cannot be read, and every other path is a regular,
readable PGM file. -/
def missingWorld : World where
  USE_DEVIL := false
  defaultConfig := { octaves := -1, levels := 3, calls := [] }
  setterThrows := fun _ => none
  fileKind := fun p =>
    if p = "absent.pgm" then .missing else if p = "dir" then .directory
    else if p = "locked/x.pgm" then .statError else .regular
  ilLoad := fun _ => .loadFails
  readPGMfile := fun p =>
    if p = "absent.pgm" then none else if p = "dir" then none
    else if p = "locked/x.pgm" then none
    else some { w := 1, h := 2, data := [7, 9] }

/-- A world in which `setGaussMode` rejects the name `bogus` with a
`std::exception` that is not a `boost::program_options::error`; everything
else as in `pgmWorld`. -/
def throwingWorld : World where
  USE_DEVIL := false
  defaultConfig := { octaves := -1, levels := 3, calls := [] }
  setterThrows := fun s =>
    if s = Setter.setGaussMode "bogus" then some (.stdException "Bad Gauss mode") else none
  fileKind := fun _ => .regular
  ilLoad := fun _ => .loadFails
  readPGMfile := fun _ => some { w := 1, h := 2, data := [7, 9] }

/-! ## Lemmas on the option store -/

/-- A switch is recorded exactly when it was not given before. -/
theorem setSwitch_ok {name : String} {b : Bool} {vm vm2 : VariablesMap} :
    setSwitch name b vm = .ok vm2 ↔ b = false ∧ vm2 = vm := by
  cases b <;> simp [setSwitch, eq_comm]

/-- A value is recorded exactly when the option had none before. -/
theorem setValue_ok {α : Type} {name : String} {o : Option α} {vm vm2 : VariablesMap} :
    setValue name o vm = .ok vm2 ↔ o = none ∧ vm2 = vm := by
  cases o <;> simp [setValue, eq_comm]

/-- Storing one item sets `help` exactly for the item `--help`. -/
theorem storeArg_help {vm vm2 : VariablesMap} {a : Arg} (h : storeArg vm a = .ok vm2) :
    vm2.help = (vm.help || decide (a = Arg.help)) := by
  cases a <;> simp only [storeArg, setSwitch_ok, setValue_ok] at h <;>
    first
    | (obtain ⟨h1, rfl⟩ := h; simp [h1])
    | cases h

/-- After a successful store, `help` is set iff it was set before or `--help`
is among the items. -/
theorem storeFrom_help {args : List Arg} {vm0 vm : VariablesMap}
    (h : storeFrom vm0 args = .ok vm) : vm.help = (vm0.help || decide (Arg.help ∈ args)) := by
  induction args generalizing vm0 with
  | nil => simp [storeFrom] at h; simp [h]
  | cons a rest ih =>
    simp only [storeFrom] at h
    split at h
    · cases h
    · next vm2 h2 =>
      rw [ih h, storeArg_help h2]
      by_cases ha : a = Arg.help
      · simp [ha]
      · have : ¬ Arg.help = a := fun h => ha h.symm
        simp [ha, this]

/-- Storing one item gives `left` the value `s` exactly for the item `--left
s`. -/
theorem storeArg_left {vm vm2 : VariablesMap} {a : Arg} (h : storeArg vm a = .ok vm2)
    (s : String) : vm2.left = some s ↔ (vm.left = some s ∨ a = Arg.left s) := by
  cases a <;> simp only [storeArg, setSwitch_ok, setValue_ok] at h <;>
    first
    | (obtain ⟨h1, rfl⟩ := h; simp [h1])
    | cases h

/-- Storing one item gives `right` the value `s` exactly for the item `--right
s`. -/
theorem storeArg_right {vm vm2 : VariablesMap} {a : Arg} (h : storeArg vm a = .ok vm2)
    (s : String) : vm2.right = some s ↔ (vm.right = some s ∨ a = Arg.right s) := by
  cases a <;> simp only [storeArg, setSwitch_ok, setValue_ok] at h <;>
    first
    | (obtain ⟨h1, rfl⟩ := h; simp [h1])
    | cases h

/-- After a successful store, `left` is `s` iff it was before or `--left s` is
among the items. -/
theorem storeFrom_left {args : List Arg} {vm0 vm : VariablesMap}
    (h : storeFrom vm0 args = .ok vm) (s : String) :
    vm.left = some s ↔ (vm0.left = some s ∨ Arg.left s ∈ args) := by
  induction args generalizing vm0 with
  | nil => simp [storeFrom] at h; simp [h]
  | cons a rest ih =>
    simp only [storeFrom] at h
    split at h
    · cases h
    · next vm2 h2 =>
      rw [ih h, storeArg_left h2, List.mem_cons, or_assoc]
      constructor <;> rintro (h | h | h) <;> simp [h]

/-- After a successful store, `right` is `s` iff it was before or `--right s`
is among the items. -/
theorem storeFrom_right {args : List Arg} {vm0 vm : VariablesMap}
    (h : storeFrom vm0 args = .ok vm) (s : String) :
    vm.right = some s ↔ (vm0.right = some s ∨ Arg.right s ∈ args) := by
  induction args generalizing vm0 with
  | nil => simp [storeFrom] at h; simp [h]
  | cons a rest ih =>
    simp only [storeFrom] at h
    split at h
    · cases h
    · next vm2 h2 =>
      rw [ih h, storeArg_right h2, List.mem_cons, or_assoc]
      constructor <;> rintro (h | h | h) <;> simp [h]

/-- On a fresh map, `help` is set iff `--help` is on the command line. -/
theorem store_help {args : List Arg} {vm : VariablesMap} (h : store args = .ok vm) :
    vm.help = decide (Arg.help ∈ args) := by
  have := storeFrom_help h
  simpa [VariablesMap.empty] using this

/-- On a fresh map, `left` is `s` iff `--left s` is on the command line. -/
theorem store_left {args : List Arg} {vm : VariablesMap} (h : store args = .ok vm)
    (s : String) : vm.left = some s ↔ Arg.left s ∈ args := by
  have := storeFrom_left h s
  simpa [VariablesMap.empty] using this

/-- On a fresh map, `right` is `s` iff `--right s` is on the command line. -/
theorem store_right {args : List Arg} {vm : VariablesMap} (h : store args = .ok vm)
    (s : String) : vm.right = some s ↔ Arg.right s ∈ args := by
  have := storeFrom_right h s
  simpa [VariablesMap.empty] using this

/-! ## Lemmas on `parseargs` and the start of `main` -/

/-- A parser error is reported on standard error with the usage text, and the
process exits with `EXIT_FAILURE`. -/
theorem parseargs_store_error {w : World} {args : List Arg} {st : PState} {what : String}
    (h : store args = .error what) :
    parseargs w args st =
      ⟨[.err (.error what), .err .usage], .halt (.exited EXIT_FAILURE)⟩ := by
  simp [parseargs, h, Except.mapError, liftExcept, tryCatch, bind, Run.bind, emit, halt]

/-- With `help` counted, the usage text goes to standard output and the
process exits with 1. -/
theorem parseargs_help {w : World} {args : List Arg} {st : PState} {vm : VariablesMap}
    (h : store args = .ok vm) (hh : vm.help = true) :
    parseargs w args st = ⟨[.out .usage], .halt (.exited 1)⟩ := by
  simp [parseargs, h, hh, Except.mapError, liftExcept, tryCatch, bind, Run.bind, emit, halt]

/-- Without `help`, the result of `parseargs` is decided by `notify`. -/
theorem parseargs_notify {w : World} {args : List Arg} {st : PState} {vm : VariablesMap}
    (h : store args = .ok vm) (hh : vm.help = false) :
    parseargs w args st =
      match notify w vm st with
      | .ok st2 => ⟨[], .ok st2⟩
      | .error (.poError what) =>
          ⟨[.err (.error what), .err .usage], .halt (.exited EXIT_FAILURE)⟩
      | .error e => ⟨[], .raise e⟩ := by
  cases hn : notify w vm st with
  | ok st2 =>
    simp [parseargs, h, hh, hn, Except.mapError, liftExcept, tryCatch, bind, Run.bind, emit, halt, pure, Run.pure]
  | error e =>
    cases e <;>
    simp [parseargs, h, hh, hn, Except.mapError, liftExcept, tryCatch, bind, Run.bind, emit, halt, pure, Run.pure]

/-- The run of `main` in terms of how `parseargs` left. -/
theorem main_eq (w : World) (args : List Arg) :
    main w args =
      match (parseargs w args (initialState w)).ctl with
      | .ok st =>
          (.cudaReset :: .out .version :: ((parseargs w args (initialState w)).trace ++
              .out (.pair st.lFile st.rFile) :: (mainAfterParse w st).trace),
            outcomeOf (mainAfterParse w st).ctl)
      | .raise (.poError what) =>
          (.cudaReset :: .out .version :: ((parseargs w args (initialState w)).trace ++
              [.out (.what what)]), .returned EXIT_SUCCESS)
      | .raise (.stdException what) =>
          (.cudaReset :: .out .version :: ((parseargs w args (initialState w)).trace ++
              [.out (.what what)]), .returned EXIT_SUCCESS)
      | .raise .other =>
          (.cudaReset :: .out .version :: (parseargs w args (initialState w)).trace,
            .terminated)
      | .halt o =>
          (.cudaReset :: .out .version :: (parseargs w args (initialState w)).trace, o) := by
  cases hp : (parseargs w args (initialState w)).ctl with
  | ok st =>
    simp [main, mainRun, hp, tryCatch, bind, Run.bind, emit, halt, pure, Run.pure, outcomeOf]
  | raise e =>
    cases e <;>
    simp [main, mainRun, hp, tryCatch, bind, Run.bind, emit, halt, pure, Run.pure, outcomeOf]
  | halt o =>
    simp [main, mainRun, hp, tryCatch, bind, Run.bind, emit, halt, pure, Run.pure, outcomeOf]

/-- A setter call that returns changes nothing but the list of calls. -/
theorem callSetter_frame {w : World} {s : Setter} {st st2 : PState}
    (h : callSetter w s st = .ok st2) : sameButCalls st st2 := by
  unfold callSetter at h
  split at h
  · cases h
  · cases h; simp [sameButCalls]

/-- A switch notifier that returns changes nothing but the list of calls. -/
theorem onSwitch_frame {w : World} {b : Bool} {s : Setter} {st st2 : PState}
    (h : onSwitch w b s st = .ok st2) : sameButCalls st st2 := by
  unfold onSwitch at h
  split at h
  · exact callSetter_frame h
  · cases h; simp [sameButCalls]

/-- A value notifier that returns changes nothing but the list of calls. -/
theorem onValue_frame {α : Type} {w : World} {v : Option α} {s : α → Setter} {st st2 : PState}
    (h : onValue w v s st = .ok st2) : sameButCalls st st2 := by
  unfold onValue at h
  split at h
  · exact callSetter_frame h
  · cases h; simp [sameButCalls]

/-- When all notify actions return, the bound variables hold the stored values
(or their old value for an absent option) and the flags hold the switches. -/
theorem runNotifiers_ok {w : World} {vm : VariablesMap} {st st2 : PState}
    (h : runNotifiers w vm st = .ok st2) :
    st2.lFile = vm.left.getD st.lFile ∧ st2.rFile = vm.right.getD st.rFile ∧
    st2.flags = { print_dev_info := vm.printDevInfo, print_time_info := vm.printTimeInfo,
                  write_as_uchar := vm.writeAsUchar, dont_write := vm.dontWrite,
                  pgmread_loading := vm.pgmreadLoading } ∧
    st2.config.octaves = vm.octaves.getD st.config.octaves ∧
    st2.config.levels = vm.levels.getD st.config.levels := by
  unfold runNotifiers at h
  simp only [bind, Except.bind, pure, Except.pure] at h
  repeat
    (split at h
     · cases h
     rename_i x hx
     first
       | have := onValue_frame hx
       | have := onSwitch_frame hx
     clear hx)
  cases h
  simp only [sameButCalls] at *
  cases hl : vm.left <;> cases hr : vm.right <;> cases ho : vm.octaves <;>
    cases hv : vm.levels <;> simp_all [storeTo]

/-- When `parseargs` returns it has written nothing, the command line parsed
without `help`, and `notify` returned the state. -/
theorem parseargs_ok {w : World} {args : List Arg} {st0 st : PState} {ptr : List Event}
    (h : parseargs w args st0 = ⟨ptr, .ok st⟩) :
    ptr = [] ∧ ∃ vm, store args = .ok vm ∧ vm.help = false ∧ notify w vm st0 = .ok st := by
  cases hs : store args with
  | error what => rw [parseargs_store_error hs] at h; cases h
  | ok vm =>
    cases hh : vm.help with
    | true => rw [parseargs_help hs hh] at h; cases h
    | false =>
      rw [parseargs_notify hs hh] at h
      split at h
      · next st2 hn =>
        cases h
        exact ⟨rfl, vm, rfl, hh, hn⟩
      · cases h
      · cases h

/-- When `parseargs` returns, `lFile` and `rFile` are the values of `--left`
and `--right` on the command line. -/
theorem parseargs_ok_files {w : World} {args : List Arg} {st0 st : PState} {ptr : List Event}
    (h : parseargs w args st0 = ⟨ptr, .ok st⟩) :
    Arg.left st.lFile ∈ args ∧ Arg.right st.rFile ∈ args := by
  obtain ⟨-, vm, hs, -, hn⟩ := parseargs_ok h
  unfold notify at hn
  split at hn
  · cases hn
  · split at hn
    · cases hn
    · next hl hr =>
      obtain ⟨h1, h2, -⟩ := runNotifiers_ok hn
      cases hl2 : vm.left with
      | none => simp [hl2] at hl
      | some l =>
        cases hr2 : vm.right with
        | none => simp [hr2] at hr
        | some r =>
          simp only [hl2, hr2, Option.getD_some] at h1 h2
          rw [h1, h2]
          exact ⟨(store_left hs l).mp hl2, (store_right hs r).mp hr2⟩

/-! ## Lemmas on trace predicates -/

/-- Without any `q` event the order property holds. -/
theorem precededBy_of_none {p q : Event → Bool} {tr : List Event}
    (h : ∀ e ∈ tr, q e = false) : precededBy p q tr = true := by
  induction tr with
  | nil => rfl
  | cons e rest ih =>
    have h1 := h e (List.mem_cons_self _ _)
    have h2 := ih (fun x hx => h x (List.mem_cons_of_mem _ hx))
    simp [precededBy, h1, h2]

/-- Events that satisfy neither predicate can be dropped from the front. -/
theorem precededBy_append {p q : Event → Bool} {pre tr : List Event}
    (h : ∀ e ∈ pre, p e = false ∧ q e = false) :
    precededBy p q (pre ++ tr) = precededBy p q tr := by
  induction pre with
  | nil => rfl
  | cons e rest ih =>
    have h1 := h e (List.mem_cons_self _ _)
    have h2 := ih (fun x hx => h x (List.mem_cons_of_mem _ hx))
    simp [precededBy, h1, h2]

/-- Without any `q` event nothing can follow. -/
theorem noneAfter_of_none {p q : Event → Bool} {tr : List Event}
    (h : ∀ e ∈ tr, q e = false) : noneAfter p q tr = true := by
  induction tr with
  | nil => rfl
  | cons e rest ih =>
    have h2 := ih (fun x hx => h x (List.mem_cons_of_mem _ hx))
    have h3 : rest.all (fun x => !q x) = true := by
      simp only [List.all_eq_true]
      intro x hx
      simp [h x (List.mem_cons_of_mem _ hx)]
    simp [noneAfter, h2, h3]

/-- Events that do not satisfy `p` can be dropped from the front. -/
theorem noneAfter_append {p q : Event → Bool} {pre tr : List Event}
    (h : ∀ e ∈ pre, p e = false) :
    noneAfter p q (pre ++ tr) = noneAfter p q tr := by
  induction pre with
  | nil => rfl
  | cons e rest ih =>
    have h1 := h e (List.mem_cons_self _ _)
    have h2 := ih (fun x hx => h x (List.mem_cons_of_mem _ hx))
    simp [noneAfter, h1, h2]

/-- Without any `p` event the property holds. -/
theorem directlyFollowedBy_of_none {p q : Event → Bool} {tr : List Event}
    (h : ∀ e ∈ tr, p e = false) : directlyFollowedBy p q tr = true := by
  induction tr with
  | nil => rfl
  | cons e rest ih =>
    have h1 := h e (List.mem_cons_self _ _)
    have h2 := ih (fun x hx => h x (List.mem_cons_of_mem _ hx))
    cases rest with
    | nil => simp [directlyFollowedBy, h1]
    | cons f rest2 => simp [directlyFollowedBy, h1, h2]

/-- Events that do not satisfy `p` can be dropped from the front. -/
theorem directlyFollowedBy_append {p q : Event → Bool} {pre tr : List Event}
    (h : ∀ e ∈ pre, p e = false) :
    directlyFollowedBy p q (pre ++ tr) = directlyFollowedBy p q tr := by
  induction pre with
  | nil => rfl
  | cons e rest ih =>
    have h1 := h e (List.mem_cons_self _ _)
    have h2 := ih (fun x hx => h x (List.mem_cons_of_mem _ hx))
    cases hrt : rest ++ tr with
    | nil =>
      have : tr = [] := (List.append_eq_nil.mp hrt).2
      rw [List.cons_append, hrt]
      simp [directlyFollowedBy, h1, this]
    | cons f rest2 =>
      rw [List.cons_append, hrt]
      rw [hrt] at h2
      simp [directlyFollowedBy, h1, h2]

/-- Filtering ignores a front part without matching events. -/
theorem filter_append_of_none {p : Event → Bool} {pre tr : List Event}
    (h : ∀ e ∈ pre, p e = false) : (pre ++ tr).filter p = tr.filter p := by
  have : pre.filter p = [] := by
    rw [List.filter_eq_nil_iff]
    intro e he
    simp [h e he]
  simp [List.filter_append, this]

/-! ## What the trace predicates say -/

/-- The meaning of `precededBy`: wherever a `q` event stands in the trace,
some `p` event stands before it. -/
theorem precededBy_iff (p q : Event → Bool) (tr : List Event) :
    precededBy p q tr = true ↔
      ∀ pre e post, tr = pre ++ e :: post → q e = true → ∃ x ∈ pre, p x = true := by
  induction tr with
  | nil =>
    constructor
    · intro _ pre e post h
      simp at h
    · intro _; rfl
  | cons a rest ih =>
    simp only [precededBy, Bool.and_eq_true, Bool.not_eq_true', Bool.or_eq_true]
    constructor
    · rintro ⟨hqa, hrest⟩ pre e post heq hqe
      cases pre with
      | nil =>
        simp only [List.nil_append, List.cons.injEq] at heq
        rw [← heq.1, hqa] at hqe
        cases hqe
      | cons b pre2 =>
        simp only [List.cons_append, List.cons.injEq] at heq
        obtain ⟨rfl, heq2⟩ := heq
        rcases hrest with hpa | hrec
        · exact ⟨a, List.mem_cons_self _ _, hpa⟩
        · obtain ⟨x, hx, hpx⟩ := (ih.mp hrec) pre2 e post heq2 hqe
          exact ⟨x, List.mem_cons_of_mem _ hx, hpx⟩
    · intro h
      constructor
      · cases hqa : q a with
        | false => rfl
        | true =>
          obtain ⟨x, hx, -⟩ := h [] a rest rfl hqa
          simp at hx
      · cases hpa : p a with
        | true => exact Or.inl rfl
        | false =>
          right
          rw [ih]
          intro pre e post heq hqe
          obtain ⟨x, hx, hpx⟩ := h (a :: pre) e post (by rw [heq]; rfl) hqe
          rcases List.mem_cons.mp hx with rfl | hx2
          · rw [hpa] at hpx; cases hpx
          · exact ⟨x, hx2, hpx⟩

/-- The meaning of `noneAfter`: wherever a `p` event stands in the trace, no
`q` event stands after it. -/
theorem noneAfter_iff (p q : Event → Bool) (tr : List Event) :
    noneAfter p q tr = true ↔
      ∀ pre e post, tr = pre ++ e :: post → p e = true → ∀ x ∈ post, q x = false := by
  induction tr with
  | nil =>
    constructor
    · intro _ pre e post h
      simp at h
    · intro _; rfl
  | cons a rest ih =>
    simp only [noneAfter, Bool.and_eq_true, Bool.or_eq_true, Bool.not_eq_true',
      List.all_eq_true]
    constructor
    · rintro ⟨hhead, hrest⟩ pre e post heq hpe
      cases pre with
      | nil =>
        simp only [List.nil_append, List.cons.injEq] at heq
        obtain ⟨rfl, rfl⟩ := heq
        rcases hhead with hpa | hall
        · rw [hpa] at hpe; cases hpe
        · exact hall
      | cons b pre2 =>
        simp only [List.cons_append, List.cons.injEq] at heq
        obtain ⟨rfl, heq2⟩ := heq
        exact (ih.mp hrest) pre2 e post heq2 hpe
    · intro h
      constructor
      · cases hpa : p a with
        | false => exact Or.inl rfl
        | true => exact Or.inr (h [] a rest rfl hpa)
      · rw [ih]
        intro pre e post heq hpe
        exact h (a :: pre) e post (by rw [heq]; rfl) hpe

/-- The meaning of `directlyFollowedBy`: wherever a `p` event stands in the
trace, the next event exists and satisfies `q`. -/
theorem directlyFollowedBy_iff (p q : Event → Bool) (tr : List Event) :
    directlyFollowedBy p q tr = true ↔
      ∀ pre e post, tr = pre ++ e :: post → p e = true →
        ∃ f rest, post = f :: rest ∧ q f = true := by
  induction tr with
  | nil =>
    constructor
    · intro _ pre e post h
      simp at h
    · intro _; rfl
  | cons a rest ih =>
    cases rest with
    | nil =>
      simp only [directlyFollowedBy, Bool.not_eq_true']
      constructor
      · intro hpa pre e post heq hpe
        cases pre with
        | nil =>
          simp only [List.nil_append, List.cons.injEq] at heq
          rw [← heq.1, hpa] at hpe
          cases hpe
        | cons b pre2 =>
          simp at heq
      · intro h
        cases hpa : p a with
        | false => rfl
        | true =>
          obtain ⟨f, r, hfr, -⟩ := h [] a [] rfl hpa
          cases hfr
    | cons b rest2 =>
      simp only [directlyFollowedBy, Bool.and_eq_true, Bool.or_eq_true, Bool.not_eq_true']
      constructor
      · rintro ⟨hhead, hrest⟩ pre e post heq hpe
        cases pre with
        | nil =>
          simp only [List.nil_append, List.cons.injEq] at heq
          obtain ⟨rfl, rfl⟩ := heq
          rcases hhead with hpa | hqb
          · rw [hpa] at hpe; cases hpe
          · exact ⟨b, rest2, rfl, hqb⟩
        | cons c pre2 =>
          simp only [List.cons_append, List.cons.injEq] at heq
          obtain ⟨rfl, heq2⟩ := heq
          exact (ih.mp hrest) pre2 e post heq2 hpe
      · intro h
        constructor
        · cases hpa : p a with
          | false => exact Or.inl rfl
          | true =>
            obtain ⟨f, r, hfr, hqf⟩ := h [] a (b :: rest2) rfl hpa
            simp only [List.cons.injEq] at hfr
            rw [hfr.1]
            exact Or.inr hqf
        · rw [ih]
          intro pre e post heq hpe
          exact h (a :: pre) e post (by rw [heq]; rfl) hpe

/-! ## The shape of a run -/

/-- A path that does not exist passes the check after one query. -/
theorem checkInput_missing {w : World} {path : String} (h : w.fileKind path = .missing) :
    checkInput w path = ⟨[.fsExists path], .ok ()⟩ := by
  simp [checkInput, World.fsExists, h, liftExcept, bind, Run.bind, emit, pure, Run.pure]

/-- A regular file passes the check after two queries. -/
theorem checkInput_regular {w : World} {path : String} (h : w.fileKind path = .regular) :
    checkInput w path = ⟨[.fsExists path, .fsIsRegular path], .ok ()⟩ := by
  simp [checkInput, World.fsExists, World.is_regular_file, h, liftExcept, bind, Run.bind,
    emit, pure, Run.pure]

/-- An existing path that is not a regular file is reported and `main`
returns `EXIT_FAILURE`. -/
theorem checkInput_reject {w : World} {path : String} (h : w.rejects path = true) :
    checkInput w path =
      ⟨[.fsExists path, .fsIsRegular path, .out (.notRegular path)],
        .halt (.returned EXIT_FAILURE)⟩ := by
  unfold World.rejects at h
  cases hk : w.fileKind path <;> simp [hk] at h <;>
    simp [checkInput, World.fsExists, World.is_regular_file, hk, liftExcept, bind, Run.bind,
      emit, halt, pure, Run.pure]

/-- A path whose status cannot be read makes the first query throw. -/
theorem checkInput_statError {w : World} {path : String}
    (h : w.fileKind path = .statError) :
    checkInput w path =
      ⟨[.fsExists path], .raise (.stdException "boost::filesystem::status")⟩ := by
  simp [checkInput, World.fsExists, h, liftExcept, bind, Run.bind, emit, pure, Run.pure]

/-- A path that does not exist or is a regular file passes the check, which
only queries the filesystem. -/
theorem checkInput_pass {w : World} {path : String} (h : w.passes path = true) :
    (checkInput w path).ctl = .ok () ∧
      ∀ e ∈ (checkInput w path).trace, e.isInputCheck = true := by
  unfold World.passes at h
  cases hk : w.fileKind path <;> simp [hk] at h
  · rw [checkInput_missing hk]
    simp [Event.isInputCheck]
  · rw [checkInput_regular hk]
    simp [Event.isInputCheck]

/-- The run after parsing when the left path is rejected. -/
theorem mainAfterParse_rejectL {w : World} {st : PState} (h : w.rejects st.lFile = true) :
    mainAfterParse w st =
      ⟨[.fsExists st.lFile, .fsIsRegular st.lFile, .out (.notRegular st.lFile)],
        .halt (.returned EXIT_FAILURE)⟩ := by
  simp [mainAfterParse, checkInput_reject h, bind, Run.bind]

/-- The run after parsing when the left path passes and the right path is
rejected. -/
theorem mainAfterParse_rejectR {w : World} {st : PState} (hl : w.passes st.lFile = true)
    (h : w.rejects st.rFile = true) :
    mainAfterParse w st =
      ⟨(checkInput w st.lFile).trace ++
          [.fsExists st.rFile, .fsIsRegular st.rFile, .out (.notRegular st.rFile)],
        .halt (.returned EXIT_FAILURE)⟩ := by
  simp [mainAfterParse, checkInput_reject h, (checkInput_pass hl).1, bind, Run.bind]

/-- The run after parsing when the status of the left path cannot be read:
the exception leaves `main`. -/
theorem mainAfterParse_statL {w : World} {st : PState}
    (h : w.fileKind st.lFile = .statError) :
    mainAfterParse w st =
      ⟨[.fsExists st.lFile], .raise (.stdException "boost::filesystem::status")⟩ := by
  simp [mainAfterParse, checkInput_statError h, bind, Run.bind]

/-- The run after parsing when the left path passes and the status of the
right path cannot be read: the exception leaves `main`. -/
theorem mainAfterParse_statR {w : World} {st : PState} (hl : w.passes st.lFile = true)
    (h : w.fileKind st.rFile = .statError) :
    mainAfterParse w st =
      ⟨(checkInput w st.lFile).trace ++ [.fsExists st.rFile],
        .raise (.stdException "boost::filesystem::status")⟩ := by
  simp [mainAfterParse, checkInput_statError h, (checkInput_pass hl).1, bind, Run.bind]

/-- The run after parsing when both paths pass: the two checks, then the
engine stage. -/
theorem mainAfterParse_pass {w : World} {st : PState} (hl : w.passes st.lFile = true)
    (hr : w.passes st.rFile = true) :
    mainAfterParse w st =
      ⟨(checkInput w st.lFile).trace ++ ((checkInput w st.rFile).trace ++
          (mainEngine w st).trace), (mainEngine w st).ctl⟩ := by
  have h1 := (checkInput_pass hl).1
  have h2 := (checkInput_pass hr).1
  simp only [mainAfterParse, bind, Run.bind, h1, h2]

/-- Every path is rejected, passes, or has an unreadable status. -/
theorem fileKind_cases (w : World) (path : String) :
    w.rejects path = true ∨ w.passes path = true ∨ w.fileKind path = .statError := by
  unfold World.rejects World.passes
  cases w.fileKind path <;> simp

/-- A filesystem query is not an engine-level event. -/
theorem isInputCheck_not_engineLevel {e : Event} (h : e.isInputCheck = true) :
    e.isEngineLevel = false := by
  cases e <;> simp [Event.isInputCheck, Event.isEngineLevel] at h ⊢

/-- The five ways `parseargs` can leave. -/
theorem parseargs_cases (w : World) (args : List Arg) (st0 : PState) :
    (∃ what, parseargs w args st0 =
        ⟨[.err (.error what), .err .usage], .halt (.exited EXIT_FAILURE)⟩) ∨
    parseargs w args st0 = ⟨[.out .usage], .halt (.exited 1)⟩ ∨
    (∃ what, parseargs w args st0 = ⟨[], .raise (.stdException what)⟩) ∨
    parseargs w args st0 = ⟨[], .raise .other⟩ ∨
    (∃ st, parseargs w args st0 = ⟨[], .ok st⟩) := by
  cases hs : store args with
  | error what => exact Or.inl ⟨what, parseargs_store_error hs⟩
  | ok vm =>
    cases hh : vm.help with
    | true => exact Or.inr (Or.inl (parseargs_help hs hh))
    | false =>
      rw [parseargs_notify hs hh]
      cases hn : notify w vm st0 with
      | ok st2 => exact Or.inr (Or.inr (Or.inr (Or.inr ⟨st2, rfl⟩)))
      | error e =>
        cases e with
        | poError what => exact Or.inl ⟨what, rfl⟩
        | stdException what => exact Or.inr (Or.inr (Or.inl ⟨what, rfl⟩))
        | other => exact Or.inr (Or.inr (Or.inr (Or.inl rfl)))

/-- The run of `main` when `parseargs` returns. -/
theorem main_of_parse_ok {w : World} {args : List Arg} {st : PState} {ptr : List Event}
    (h : parseargs w args (initialState w) = ⟨ptr, .ok st⟩) :
    main w args =
      (.cudaReset :: .out .version :: .out (.pair st.lFile st.rFile) ::
        (mainAfterParse w st).trace, outcomeOf (mainAfterParse w st).ctl) := by
  obtain ⟨rfl, -⟩ := parseargs_ok h
  rw [main_eq, h]
  rfl

/-- Every run either has no engine-level event at all, or parsing and both
input checks succeeded and the trace is the engine stage after a part without
engine-level events. -/
theorem main_shape (w : World) (args : List Arg) :
    (∀ e ∈ (main w args).1, e.isEngineLevel = false) ∨
    ∃ st pre, parseargs w args (initialState w) = ⟨[], .ok st⟩ ∧
      w.passes st.lFile = true ∧ w.passes st.rFile = true ∧
      (∀ e ∈ pre, e.isEngineLevel = false) ∧
      main w args = (pre ++ (mainEngine w st).trace, outcomeOf (mainEngine w st).ctl) := by
  rcases parseargs_cases w args (initialState w) with ⟨what, h⟩ | h | ⟨what, h⟩ | h | ⟨st, h⟩
  · left; rw [main_eq, h]; intro e he; simp at he
    rcases he with rfl | rfl | rfl | rfl <;> rfl
  · left; rw [main_eq, h]; intro e he; simp at he
    rcases he with rfl | rfl | rfl <;> rfl
  · left; rw [main_eq, h]; intro e he; simp at he
    rcases he with rfl | rfl | rfl <;> rfl
  · left; rw [main_eq, h]; intro e he; simp at he
    rcases he with rfl | rfl <;> rfl
  · rw [main_of_parse_ok h]
    rcases fileKind_cases w st.lFile with hl | hl | hl
    · left; rw [mainAfterParse_rejectL hl]; intro e he; simp at he
      rcases he with rfl | rfl | rfl | rfl | rfl | rfl <;> rfl
    · have hcl := (checkInput_pass hl).2
      rcases fileKind_cases w st.rFile with hr | hr | hr
      · left; rw [mainAfterParse_rejectR hl hr]; intro e he; simp at he
        rcases he with rfl | rfl | rfl | he | rfl | rfl | rfl <;> try rfl
        exact isInputCheck_not_engineLevel (hcl e he)
      · have hcr := (checkInput_pass hr).2
        right
        refine ⟨st, .cudaReset :: .out .version :: .out (.pair st.lFile st.rFile) ::
          ((checkInput w st.lFile).trace ++ (checkInput w st.rFile).trace), h, hl, hr, ?_, ?_⟩
        · intro e he; simp at he
          rcases he with rfl | rfl | rfl | he | he <;> try rfl
          · exact isInputCheck_not_engineLevel (hcl e he)
          · exact isInputCheck_not_engineLevel (hcr e he)
        · rw [mainAfterParse_pass hl hr]
          simp
      · left; rw [mainAfterParse_statR hl hr]; intro e he; simp at he
        rcases he with rfl | rfl | rfl | he | rfl <;> try rfl
        exact isInputCheck_not_engineLevel (hcl e he)
    · left; rw [mainAfterParse_statL hl]; intro e he; simp at he
      rcases he with rfl | rfl | rfl | rfl <;> rfl

/-! ## The engine stage -/

/-- In the engine stage the engine is constructed once, from the given
configuration; enqueues come after it, go to engine 0, and none follows
`uninit`. -/
theorem mainEngine_engine_facts (w : World) (st : PState) :
    (mainEngine w st).trace.filter Event.isConstruct =
      [.construct 0 st.config .MatchingMode] ∧
    precededBy Event.isConstruct Event.isEnqueue (mainEngine w st).trace = true ∧
    noneAfter Event.isUninit Event.isEnqueue (mainEngine w st).trace = true ∧
    (∀ eng job img, Event.enqueue eng job img ∈ (mainEngine w st).trace → eng = 0) := by
  unfold mainEngine process_image
  by_cases hd : (w.USE_DEVIL && !st.flags.pgmread_loading) = true
  · simp only [hd, if_true]
    cases hl : w.ilLoad st.lFile <;> cases hr : w.ilLoad st.rFile <;>
      cases hp : st.flags.print_dev_info <;>
      simp [bind, Run.bind, emit, halt, pure, Run.pure, getDev, precededBy, noneAfter,
        Event.isConstruct, Event.isEnqueue, Event.isUninit] <;>
      try tauto
  · simp only [hd]
    cases hl : w.readPGMfile st.lFile <;> cases hr : w.readPGMfile st.rFile <;>
      cases hp : st.flags.print_dev_info <;>
      simp [bind, Run.bind, emit, halt, pure, Run.pure, getDev, precededBy, noneAfter,
        Event.isConstruct, Event.isEnqueue, Event.isUninit] <;>
      try tauto

/-- An event that is not engine-level satisfies none of the finer predicates.
-/
theorem isEngineLevel_false {e : Event} (h : e.isEngineLevel = false) :
    e.isConstruct = false ∧ e.isEnqueue = false ∧ e.isUninit = false ∧ e.isMatch = false ∧
    e.isRelease = false ∧ e.isJobOp = false ∧
    ∀ job, e.isEnqueueOf job = false ∧ e.isFreeOf job = false ∧ e.isGetDevOf job = false := by
  cases e <;> simp_all [Event.isEngineLevel, Event.isConstruct, Event.isEnqueue, Event.isUninit,
    Event.isMatch, Event.isRelease, Event.isJobOp, Event.isEnqueueOf,
    Event.isFreeOf, Event.isGetDevOf]

/-- In the engine stage each buffer is freed directly after its enqueue and
before the `getDev` of its job. -/
theorem mainEngine_buffer_facts (w : World) (st : PState) (job : Nat) :
    directlyFollowedBy (Event.isEnqueueOf job) (Event.isFreeOf job) (mainEngine w st).trace = true ∧
    precededBy (Event.isEnqueueOf job) (Event.isFreeOf job) (mainEngine w st).trace = true ∧
    precededBy (Event.isFreeOf job) (Event.isGetDevOf job) (mainEngine w st).trace = true := by
  unfold mainEngine process_image
  by_cases hd : (w.USE_DEVIL && !st.flags.pgmread_loading) = true
  · simp only [hd, if_true]
    rcases job with _ | _ | job <;>
    cases hl : w.ilLoad st.lFile <;> cases hr : w.ilLoad st.rFile <;>
      cases hp : st.flags.print_dev_info <;>
      simp [bind, Run.bind, emit, halt, pure, Run.pure, getDev, precededBy, directlyFollowedBy,
        Event.isEnqueueOf, Event.isFreeOf, Event.isGetDevOf]
  · simp only [hd]
    rcases job with _ | _ | job <;>
    cases hl : w.readPGMfile st.lFile <;> cases hr : w.readPGMfile st.rFile <;>
      cases hp : st.flags.print_dev_info <;>
      simp [bind, Run.bind, emit, halt, pure, Run.pure, getDev, precededBy, directlyFollowedBy,
        Event.isEnqueueOf, Event.isFreeOf, Event.isGetDevOf]

/-- In the engine stage with both images loading, the job operations are the
enqueue of the left image, the enqueue of the right image, the two `getDev`
and the match; these two enqueues are the only ones. -/
theorem mainEngine_job_ops {w : World} {st : PState} {imgL imgR : Image}
    (hl : w.image st.flags st.lFile = some imgL)
    (hr : w.image st.flags st.rFile = some imgR) :
    (mainEngine w st).trace.filter Event.isJobOp =
      [.enqueue 0 0 imgL, .enqueue 0 1 imgR, .getDev (some 0), .getDev (some 1),
        .matchFeatures 0 1] ∧
    (mainEngine w st).trace.filter Event.isEnqueue =
      [.enqueue 0 0 imgL, .enqueue 0 1 imgR] := by
  unfold World.image at hl hr
  unfold mainEngine process_image
  by_cases hd : (w.USE_DEVIL && !st.flags.pgmread_loading) = true
  · simp only [hd, if_true] at hl hr ⊢
    cases hil : w.ilLoad st.lFile <;> simp [hil] at hl
    cases hir : w.ilLoad st.rFile <;> simp [hir] at hr
    subst hl hr
    cases hp : st.flags.print_dev_info <;>
      simp [bind, Run.bind, emit, halt, pure, Run.pure, getDev, Event.isJobOp,
        Event.isEnqueue]
  · simp only [hd] at hl hr ⊢
    simp only [Bool.false_eq_true, if_false] at hl hr
    cases hp : st.flags.print_dev_info <;>
      simp [hl, hr, bind, Run.bind, emit, halt, pure, Run.pure, getDev, Event.isJobOp,
        Event.isEnqueue]

/-- The engine stage never reports a path as not regular. -/
theorem mainEngine_no_notRegular (w : World) (st : PState) (p : String) :
    Event.out (.notRegular p) ∉ (mainEngine w st).trace := by
  unfold mainEngine process_image
  by_cases hd : (w.USE_DEVIL && !st.flags.pgmread_loading) = true
  · simp only [hd, if_true]
    cases hl : w.ilLoad st.lFile <;> cases hr : w.ilLoad st.rFile <;>
      cases hp : st.flags.print_dev_info <;>
      simp [bind, Run.bind, emit, halt, pure, Run.pure, getDev]
  · simp only [hd]
    cases hl : w.readPGMfile st.lFile <;> cases hr : w.readPGMfile st.rFile <;>
      cases hp : st.flags.print_dev_info <;>
      simp [bind, Run.bind, emit, halt, pure, Run.pure, getDev]

/-- An engine stage that reaches the match call finishes with match, release,
release, `uninit` and returns `EXIT_SUCCESS`. -/
theorem mainEngine_match {w : World} {st : PState}
    (h : ∃ l r, Event.matchFeatures l r ∈ (mainEngine w st).trace) :
    ∃ pre, mainEngine w st =
        ⟨pre ++ [.matchFeatures 0 1, .release 0, .release 1, .uninit 0], .ok EXIT_SUCCESS⟩ ∧
      ∀ e ∈ pre, e.isMatch = false ∧ e.isRelease = false ∧ e.isUninit = false := by
  obtain ⟨l, r, h⟩ := h
  unfold mainEngine process_image at h ⊢
  by_cases hd : (w.USE_DEVIL && !st.flags.pgmread_loading) = true
  · simp only [hd, if_true] at h ⊢
    cases hil : w.ilLoad st.lFile <;> cases hir : w.ilLoad st.rFile <;>
      cases hp : st.flags.print_dev_info <;>
      simp [hil, hir, hp, bind, Run.bind, emit, halt, pure, Run.pure, getDev] at h ⊢
    · refine ⟨[_, _, _, _, _, _, _, _, _, _, _, _, _, _], rfl, ?_⟩
      simp [Event.isMatch, Event.isRelease, Event.isUninit]
    · refine ⟨[_, _, _, _, _, _, _, _, _, _, _, _, _, _, _], rfl, ?_⟩
      simp [Event.isMatch, Event.isRelease, Event.isUninit]
  · simp only [hd] at h ⊢
    cases hil : w.readPGMfile st.lFile <;> cases hir : w.readPGMfile st.rFile <;>
      cases hp : st.flags.print_dev_info <;>
      simp [hil, hir, hp, bind, Run.bind, emit, halt, pure, Run.pure, getDev] at h ⊢
    · refine ⟨[_, _, _, _, _, _, _, _, _, _, _, _], rfl, ?_⟩
      simp [Event.isMatch, Event.isRelease, Event.isUninit]
    · refine ⟨[_, _, _, _, _, _, _, _, _, _, _, _, _], rfl, ?_⟩
      simp [Event.isMatch, Event.isRelease, Event.isUninit]

/-- When `parseargs` returns, the only `--left` and `--right` values on the
command line are `lFile` and `rFile`. -/
theorem parseargs_ok_unique {w : World} {args : List Arg} {st0 st : PState}
    {ptr : List Event} (h : parseargs w args st0 = ⟨ptr, .ok st⟩) :
    (∀ l, Arg.left l ∈ args → st.lFile = l) ∧ (∀ r, Arg.right r ∈ args → st.rFile = r) := by
  obtain ⟨-, vm, hs, -, -⟩ := parseargs_ok h
  obtain ⟨hl, hr⟩ := parseargs_ok_files h
  have hl2 := (store_left hs st.lFile).mpr hl
  have hr2 := (store_right hs st.rFile).mpr hr
  constructor
  · intro l hmem
    have := (store_left hs l).mpr hmem
    rw [hl2] at this
    exact Option.some.inj this
  · intro r hmem
    have := (store_right hs r).mpr hmem
    rw [hr2] at this
    exact Option.some.inj this

/-- The run of `main` when `parseargs` returns and both input checks pass: a
part without engine-level events, then the engine stage. -/
theorem main_of_pass {w : World} {args : List Arg} {st : PState}
    (hparse : (parseargs w args (initialState w)).ctl = .ok st)
    (hl : w.passes st.lFile = true) (hr : w.passes st.rFile = true) :
    (∀ e ∈ Event.cudaReset :: .out .version :: .out (.pair st.lFile st.rFile) ::
        ((checkInput w st.lFile).trace ++ (checkInput w st.rFile).trace),
      e.isEngineLevel = false ∧ ∀ p, e ≠ .out (.notRegular p)) ∧
    main w args =
      ((Event.cudaReset :: .out .version :: .out (.pair st.lFile st.rFile) ::
        ((checkInput w st.lFile).trace ++ (checkInput w st.rFile).trace)) ++
        (mainEngine w st).trace, outcomeOf (mainEngine w st).ctl) := by
  have hp : parseargs w args (initialState w) =
      ⟨(parseargs w args (initialState w)).trace, .ok st⟩ := by
    rw [← hparse]
  have hm := main_of_parse_ok hp
  rw [mainAfterParse_pass hl hr] at hm
  constructor
  · intro e he
    simp only [List.mem_cons, List.mem_append] at he
    rcases he with rfl | rfl | rfl | he | he
    · exact ⟨rfl, fun p h => by cases h⟩
    · exact ⟨rfl, fun p h => by cases h⟩
    · exact ⟨rfl, fun p h => by cases h⟩
    · have hc := (checkInput_pass hl).2 e he
      refine ⟨isInputCheck_not_engineLevel hc, fun p h => ?_⟩
      rw [h] at hc
      cases hc
    · have hc := (checkInput_pass hr).2 e he
      refine ⟨isInputCheck_not_engineLevel hc, fun p h => ?_⟩
      rw [h] at hc
      cases hc
  · rw [hm]
    simp

/-- The run of `main` when `parseargs` returns and the status of the left
path cannot be read: the `filesystem_error` thrown by the first query is
caught nowhere and the process is terminated before the right path is
looked at. -/
theorem main_statError_left {w : World} {args : List Arg} {st : PState}
    (hparse : (parseargs w args (initialState w)).ctl = .ok st)
    (h : w.fileKind st.lFile = .statError) :
    main w args =
      ([.cudaReset, .out .version, .out (.pair st.lFile st.rFile), .fsExists st.lFile],
       .terminated) := by
  have hp : parseargs w args (initialState w) =
      ⟨(parseargs w args (initialState w)).trace, .ok st⟩ := by
    rw [← hparse]
  rw [main_of_parse_ok hp, mainAfterParse_statL h]
  rfl

/-! ## The claims -/

/-- C1 fails as stated: the command line `--help` parses, and the status of
the process is 1, which is not the success status. -/
theorem help_exit_status_not_success :
    store [Arg.help] = .ok { help := true } ∧
      (main pgmWorld [Arg.help]).2 = .exited 1 ∧
      (main pgmWorld [Arg.help]).2.isSuccess = false :=
  ⟨rfl, rfl, rfl⟩

/-- C1 (as the code behaves): a command line that parses and contains
`--help` makes `parseargs` print the usage text on standard output and end
the process with `exit(1)`, whatever else is on the command line; the
status is 1, not the success status. -/
theorem parseargs_help_exits_one (w : World) (args : List Arg) (vm : VariablesMap)
    (st : PState) (hparse : store args = .ok vm) (hhelp : Arg.help ∈ args) :
    parseargs w args st = ⟨[.out .usage], .halt (.exited 1)⟩ ∧
    main w args = ([.cudaReset, .out .version, .out .usage], .exited 1) ∧
    (main w args).2.isFailure = true := by
  have hh : vm.help = true := by rw [store_help hparse]; simpa using hhelp
  have hp : parseargs w args st = ⟨[.out .usage], .halt (.exited 1)⟩ :=
    parseargs_help hparse hh
  have hp0 : parseargs w args (initialState w) = ⟨[.out .usage], .halt (.exited 1)⟩ :=
    parseargs_help hparse hh
  have hm : main w args = ([.cudaReset, .out .version, .out .usage], .exited 1) := by
    rw [main_eq, hp0]
  refine ⟨hp, hm, ?_⟩
  rw [hm]
  rfl

/-- C1, an instance: `--help --left a.pgm`. -/
theorem parseargs_help_exits_one_witness :
    parseargs pgmWorld [.help, .left "a.pgm"] (initialState pgmWorld) =
        ⟨[.out .usage], .halt (.exited 1)⟩ ∧
      main pgmWorld [.help, .left "a.pgm"] =
        ([.cudaReset, .out .version, .out .usage], .exited 1) ∧
      (main pgmWorld [.help, .left "a.pgm"]).2.isFailure = true :=
  parseargs_help_exits_one pgmWorld [.help, .left "a.pgm"]
    { help := true, left := some "a.pgm" } (initialState pgmWorld) (by rfl) (by decide)

/-- C2: when `--left` or `--right` is missing from the command line, the
process prints the usage text and ends through `exit` with status 1 (a
failure status), and its trace holds no input check and no engine
operation. -/
theorem missing_required_exits_failure (w : World) (args : List Arg)
    (hmiss : (∀ s, Arg.left s ∉ args) ∨ (∀ s, Arg.right s ∉ args)) :
    (main w args).2 = .exited 1 ∧ (main w args).2.isFailure = true ∧
    (Event.out .usage ∈ (main w args).1 ∨ Event.err .usage ∈ (main w args).1) ∧
    ∀ e ∈ (main w args).1, e.isInputCheck = false ∧ e.isEngineLevel = false := by
  have key : main w args = ([.cudaReset, .out .version, .out .usage], .exited 1) ∨
      ∃ what, main w args =
        ([.cudaReset, .out .version, .err (.error what), .err .usage], .exited 1) := by
    cases hs : store args with
    | error what =>
      right
      refine ⟨what, ?_⟩
      rw [main_eq, parseargs_store_error hs]
      rfl
    | ok vm =>
      cases hh : vm.help with
      | true =>
        left
        rw [main_eq, parseargs_help hs hh]
      | false =>
        right
        have hn : ∃ what, notify w vm (initialState w) = .error (.poError what) := by
          by_cases hl : vm.left = none
          · refine ⟨"the option --left is required but missing", ?_⟩
            simp [notify, hl]
          · by_cases hr : vm.right = none
            · refine ⟨"the option --right is required but missing", ?_⟩
              have : vm.left.isNone = false := by
                cases hv : vm.left <;> simp_all
              simp [notify, hr, this]
            · exfalso
              cases hl2 : vm.left with
              | none => exact hl hl2
              | some l =>
                cases hr2 : vm.right with
                | none => exact hr hr2
                | some r =>
                  rcases hmiss with hm | hm
                  · exact hm l ((store_left hs l).mp hl2)
                  · exact hm r ((store_right hs r).mp hr2)
        obtain ⟨what, hn⟩ := hn
        refine ⟨what, ?_⟩
        rw [main_eq, parseargs_notify hs hh, hn]
        rfl
  rcases key with h | ⟨what, h⟩
  · rw [h]
    refine ⟨rfl, rfl, Or.inl (by simp), ?_⟩
    intro e he
    simp at he
    rcases he with rfl | rfl | rfl <;> exact ⟨rfl, rfl⟩
  · rw [h]
    refine ⟨rfl, rfl, Or.inr (by simp), ?_⟩
    intro e he
    simp at he
    rcases he with rfl | rfl | rfl | rfl <;> exact ⟨rfl, rfl⟩

/-- C2, an instance: `--left a.pgm --verbose` lacks `--right`. -/
theorem missing_required_exits_failure_witness :
    (main pgmWorld [.left "a.pgm", .verbose]).2 = .exited 1 ∧
      (main pgmWorld [.left "a.pgm", .verbose]).2.isFailure = true ∧
      (Event.out .usage ∈ (main pgmWorld [.left "a.pgm", .verbose]).1 ∨
        Event.err .usage ∈ (main pgmWorld [.left "a.pgm", .verbose]).1) ∧
      ∀ e ∈ (main pgmWorld [.left "a.pgm", .verbose]).1,
        e.isInputCheck = false ∧ e.isEngineLevel = false :=
  missing_required_exits_failure pgmWorld [.left "a.pgm", .verbose]
    (Or.inr (by intro s; simp))

/-- C3 fails as stated: with a left path that does not exist the input
checks pass silently; the engine is constructed, and the run only stops when
`process_image` cannot read the file. -/
theorem missing_input_reaches_engine :
    (parseargs missingWorld [.left "absent.pgm", .right "b.pgm"]
        (initialState missingWorld)).ctl =
      .ok { config := missingWorld.defaultConfig, lFile := "absent.pgm", rFile := "b.pgm",
            flags := {} } ∧
    missingWorld.fileKind "absent.pgm" = .missing ∧
    main missingWorld [.left "absent.pgm", .right "b.pgm"] =
      ([.cudaReset, .out .version, .out (.pair "absent.pgm" "b.pgm"),
        .fsExists "absent.pgm", .fsExists "b.pgm", .fsIsRegular "b.pgm",
        .deviceSet false, .construct 0 missingWorld.defaultConfig .MatchingMode],
       .exited EXIT_FAILURE) := by
  refine ⟨rfl, by decide, by decide⟩

/-- C3 (as the code behaves): let `parseargs` return, with `l` and `r` the
values of `--left` and `--right`.  The left path is checked first.  If it
exists and is not a regular file (a directory, say), `main` reports `l` and
returns `EXIT_FAILURE`; if it does not exist or is a regular file and the
right path exists and is not a regular file, `main` reports `r` and returns
`EXIT_FAILURE`; in both cases the run stops there, before the engine is
constructed or an image enqueued.  A path that does not exist is not
rejected: when each path is missing or a regular file, nothing is reported
and the engine is constructed. -/
theorem validation_rejects_non_regular (w : World) (args : List Arg) (st : PState)
    (l r : String) (hparse : (parseargs w args (initialState w)).ctl = .ok st)
    (hl : Arg.left l ∈ args) (hr : Arg.right r ∈ args) :
    (w.rejects l = true →
      main w args =
        ([.cudaReset, .out .version, .out (.pair l r),
          .fsExists l, .fsIsRegular l, .out (.notRegular l)],
         .returned EXIT_FAILURE)) ∧
    (w.fileKind l = .missing → w.rejects r = true →
      main w args =
        ([.cudaReset, .out .version, .out (.pair l r),
          .fsExists l,
          .fsExists r, .fsIsRegular r, .out (.notRegular r)],
         .returned EXIT_FAILURE)) ∧
    (w.fileKind l = .regular → w.rejects r = true →
      main w args =
        ([.cudaReset, .out .version, .out (.pair l r),
          .fsExists l, .fsIsRegular l,
          .fsExists r, .fsIsRegular r, .out (.notRegular r)],
         .returned EXIT_FAILURE)) ∧
    (w.passes l = true → w.passes r = true →
      Event.construct 0 st.config .MatchingMode ∈ (main w args).1 ∧
      ∀ p, Event.out (.notRegular p) ∉ (main w args).1) ∧
    (Outcome.returned EXIT_FAILURE).isFailure = true := by
  have hp : parseargs w args (initialState w) =
      ⟨(parseargs w args (initialState w)).trace, .ok st⟩ := by
    rw [← hparse]
  obtain ⟨hul, hur⟩ := parseargs_ok_unique hp
  have hl2 := hul l hl
  have hr2 := hur r hr
  subst hl2 hr2
  have hm := main_of_parse_ok hp
  refine ⟨?_, ?_, ?_, ?_, rfl⟩
  · intro hrej
    rw [hm, mainAfterParse_rejectL hrej]
    rfl
  · intro hmiss hrej
    have hpass : w.passes st.lFile = true := by simp [World.passes, hmiss]
    rw [hm, mainAfterParse_rejectR hpass hrej, checkInput_missing hmiss]
    rfl
  · intro hreg hrej
    have hpass : w.passes st.lFile = true := by simp [World.passes, hreg]
    rw [hm, mainAfterParse_rejectR hpass hrej, checkInput_regular hreg]
    rfl
  · intro hpl hpr
    obtain ⟨hpre, hmain⟩ := main_of_pass hparse hpl hpr
    rw [hmain]
    constructor
    · have h2 : Event.construct 0 st.config .MatchingMode ∈
          (mainEngine w st).trace.filter Event.isConstruct := by
        rw [(mainEngine_engine_facts w st).1]; simp
      exact List.mem_append_right _ (List.mem_filter.mp h2).1
    · intro p hmem
      rcases List.mem_append.mp hmem with h1 | h1
      · exact (hpre _ h1).2 p rfl
      · exact mainEngine_no_notRegular w st p h1

/-- C3, an instance: the left path is a regular file, the right path is a
directory. -/
theorem validation_rejects_non_regular_witness :
    main missingWorld [.left "a.pgm", .right "dir"] =
      ([.cudaReset, .out .version, .out (.pair "a.pgm" "dir"),
        .fsExists "a.pgm", .fsIsRegular "a.pgm",
        .fsExists "dir", .fsIsRegular "dir", .out (.notRegular "dir")],
       .returned EXIT_FAILURE) :=
  (validation_rejects_non_regular missingWorld [.left "a.pgm", .right "dir"]
    { config := missingWorld.defaultConfig, lFile := "a.pgm", rFile := "dir", flags := {} }
    "a.pgm" "dir" rfl (by decide) (by decide)).2.2.1 (by decide) (by decide)

/-- C4 fails on the code: when `setGaussMode` throws a `std::exception` that
is not a `boost::program_options::error`, the handler in `parseargs` lets it
pass, the handler in `main` writes the text on standard output and `main`
returns `EXIT_SUCCESS`; nothing is written on standard error. -/
theorem setter_exception_returns_success :
    main throwingWorld [.left "a.pgm", .right "b.pgm", .gaussMode "bogus"] =
      ([.cudaReset, .out .version, .out (.what "Bad Gauss mode")],
       .returned EXIT_SUCCESS) ∧
    (Outcome.returned EXIT_SUCCESS).isFailure = false := by
  decide

/-- C5 fails on the code: in a DevIL build, when `img.Load` fails for the
left file, `process_image` returns the null pointer, `main` goes on to
enqueue the right image and then calls `getDev` through the null handle;
the process does not exit with a failure status. -/
theorem null_job_dereferenced :
    main devilWorld [.left "left.jpg", .right "right.jpg"] =
      ([.cudaReset, .out .version, .out (.pair "left.jpg" "right.jpg"),
        .fsExists "left.jpg", .fsIsRegular "left.jpg",
        .fsExists "right.jpg", .fsIsRegular "right.jpg",
        .deviceSet false, .construct 0 devilWorld.defaultConfig .MatchingMode,
        .err (.couldNotLoad "left.jpg"),
        .out (.loading 2 2 "right.jpg"),
        .enqueue 0 0 { w := 2, h := 2, data := [1, 2, 3, 4] }, .imgClear 0,
        .getDev none],
       .undefinedBehaviour) ∧
    devilWorld.image {} "left.jpg" = none ∧
    Outcome.undefinedBehaviour.isFailure = false := by
  decide

/-- C6 fails as stated: in the run on two readable PGM files the buffer of
job 0 is freed although no `getDev` of job 0 has happened before; the free
directly follows the enqueue and `getDev` comes later. -/
theorem buffer_freed_before_getDev :
    precededBy (Event.isGetDevOf 0) (Event.isFreeOf 0)
        (main pgmWorld [.left "a.pgm", .right "b.pgm"]).1 = false ∧
      (main pgmWorld [.left "a.pgm", .right "b.pgm"]).1.filter Event.isEngineLevel =
        [.construct 0 pgmWorld.defaultConfig .MatchingMode,
         .enqueue 0 0 { w := 2, h := 3, data := [10, 20, 30, 40, 50, 60] }, .deleteBuffer 0,
         .enqueue 0 1 { w := 1, h := 2, data := [7, 9] }, .deleteBuffer 1,
         .getDev (some 0), .getDev (some 1), .matchFeatures 0 1,
         .release 0, .release 1, .uninit 0] := by
  decide

/-- C6 (as the code behaves): in every run and for every job, the image
buffer passed to the enqueue of the job is freed or cleared directly after
that enqueue; a buffer is never freed before it was enqueued, and every
`getDev` of the job comes after its buffer was freed. -/
theorem buffer_freed_right_after_enqueue (w : World) (args : List Arg) (job : Nat) :
    directlyFollowedBy (Event.isEnqueueOf job) (Event.isFreeOf job) (main w args).1 = true ∧
    precededBy (Event.isEnqueueOf job) (Event.isFreeOf job) (main w args).1 = true ∧
    precededBy (Event.isFreeOf job) (Event.isGetDevOf job) (main w args).1 = true := by
  rcases main_shape w args with h | ⟨st, pre, -, -, -, hpre, hm⟩
  · exact ⟨directlyFollowedBy_of_none (fun e he => ((isEngineLevel_false (h e he)).2.2.2.2.2.2 job).1),
      precededBy_of_none (fun e he => ((isEngineLevel_false (h e he)).2.2.2.2.2.2 job).2.1),
      precededBy_of_none (fun e he => ((isEngineLevel_false (h e he)).2.2.2.2.2.2 job).2.2)⟩
  · obtain ⟨f1, f2, f3⟩ := mainEngine_buffer_facts w st job
    have hq := fun e he => (isEngineLevel_false (hpre e he)).2.2.2.2.2.2 job
    rw [hm]
    show directlyFollowedBy _ _ (pre ++ (mainEngine w st).trace) = true ∧
      precededBy _ _ (pre ++ (mainEngine w st).trace) = true ∧
      precededBy _ _ (pre ++ (mainEngine w st).trace) = true
    rw [directlyFollowedBy_append (fun e he => (hq e he).1),
      precededBy_append (fun e he => ⟨(hq e he).1, (hq e he).2.1⟩),
      precededBy_append (fun e he => ⟨(hq e he).2.1, (hq e he).2.2⟩)]
    exact ⟨f1, f2, f3⟩

/-- C7 fails as stated: the run on `--help` alone prints the usage and exits
without ever constructing the engine. -/
theorem help_run_constructs_no_engine :
    main pgmWorld [Arg.help] = ([.cudaReset, .out .version, .out .usage], .exited 1) ∧
    occurrences Event.isConstruct (main pgmWorld [Arg.help]).1 = 0 := by
  decide

/-- C7 (as the code behaves): the engine is constructed exactly once, from
the configuration `parseargs` left and `MatchingMode`, in every run in which
`parseargs` returns and both input checks pass, and in no other run.  In
every run each enqueue comes after the construction and goes to the
constructed engine, and no enqueue follows `uninit`.  When moreover both
images load, the enqueues are exactly two: the left image as job 0, then the
right image as job 1, both on that engine. -/
theorem engine_constructed_once_before_enqueue (w : World) (args : List Arg) :
    occurrences Event.isConstruct (main w args).1 ≤ 1 ∧
    (∀ st, (parseargs w args (initialState w)).ctl = .ok st →
      w.passes st.lFile = true → w.passes st.rFile = true →
      (main w args).1.filter Event.isConstruct = [.construct 0 st.config .MatchingMode]) ∧
    (∀ e ∈ (main w args).1, e.isConstruct = true →
      ∃ st, (parseargs w args (initialState w)).ctl = .ok st ∧
        w.passes st.lFile = true ∧ w.passes st.rFile = true ∧
        e = .construct 0 st.config .MatchingMode) ∧
    precededBy Event.isConstruct Event.isEnqueue (main w args).1 = true ∧
    (∀ eng job img, Event.enqueue eng job img ∈ (main w args).1 →
      ∃ config, Event.construct eng config .MatchingMode ∈ (main w args).1) ∧
    noneAfter Event.isUninit Event.isEnqueue (main w args).1 = true ∧
    (∀ st imgL imgR, (parseargs w args (initialState w)).ctl = .ok st →
      w.passes st.lFile = true → w.passes st.rFile = true →
      w.image st.flags st.lFile = some imgL → w.image st.flags st.rFile = some imgR →
      (main w args).1.filter Event.isEnqueue = [.enqueue 0 0 imgL, .enqueue 0 1 imgR]) := by
  have honce : ∀ st, (parseargs w args (initialState w)).ctl = .ok st →
      w.passes st.lFile = true → w.passes st.rFile = true →
      (main w args).1.filter Event.isConstruct =
        [.construct 0 st.config .MatchingMode] := by
    intro st hst hl hr
    obtain ⟨hpre, hmain⟩ := main_of_pass hst hl hr
    rw [hmain]
    show (_ ++ (mainEngine w st).trace).filter Event.isConstruct = _
    rw [filter_append_of_none (fun e he => (isEngineLevel_false (hpre e he).1).1),
      (mainEngine_engine_facts w st).1]
  have htwo : ∀ st imgL imgR, (parseargs w args (initialState w)).ctl = .ok st →
      w.passes st.lFile = true → w.passes st.rFile = true →
      w.image st.flags st.lFile = some imgL → w.image st.flags st.rFile = some imgR →
      (main w args).1.filter Event.isEnqueue =
        [.enqueue 0 0 imgL, .enqueue 0 1 imgR] := by
    intro st imgL imgR hst hl hr hiL hiR
    obtain ⟨hpre, hmain⟩ := main_of_pass hst hl hr
    rw [hmain]
    show (_ ++ (mainEngine w st).trace).filter Event.isEnqueue = _
    rw [filter_append_of_none (fun e he => (isEngineLevel_false (hpre e he).1).2.1),
      (mainEngine_job_ops hiL hiR).2]
  rcases main_shape w args with h | ⟨st, pre, hp, hl, hr, hpre, hm⟩
  · have hc : (main w args).1.filter Event.isConstruct = [] := by
      rw [List.filter_eq_nil_iff]
      intro e he
      simp [(isEngineLevel_false (h e he)).1]
    refine ⟨by simp [occurrences, hc], honce, ?_, ?_, ?_, ?_, htwo⟩
    · intro e he hc2
      have := (isEngineLevel_false (h e he)).1
      rw [this] at hc2
      cases hc2
    · exact precededBy_of_none (fun e he => (isEngineLevel_false (h e he)).2.1)
    · intro eng job img he
      have := h _ he
      simp [Event.isEngineLevel] at this
    · exact noneAfter_of_none (fun e he => (isEngineLevel_false (h e he)).2.1)
  · obtain ⟨-, f2, f3, f4⟩ := mainEngine_engine_facts w st
    have hst : (parseargs w args (initialState w)).ctl = .ok st := by rw [hp]
    have hpc : ∀ e ∈ pre, e.isConstruct = false := fun e he => (isEngineLevel_false (hpre e he)).1
    have hfilter := honce st hst hl hr
    have hmemc : Event.construct 0 st.config .MatchingMode ∈ (main w args).1 := by
      have h2 : Event.construct 0 st.config .MatchingMode ∈
          (main w args).1.filter Event.isConstruct := by
        rw [hfilter]; simp
      exact (List.mem_filter.mp h2).1
    refine ⟨by simp [occurrences, hfilter], honce, ?_, ?_, ?_, ?_, htwo⟩
    · intro e he hc
      refine ⟨st, hst, hl, hr, ?_⟩
      have h2 : e ∈ (main w args).1.filter Event.isConstruct := List.mem_filter.mpr ⟨he, hc⟩
      rw [hfilter] at h2
      simpa using h2
    · rw [hm]
      show precededBy _ _ (pre ++ (mainEngine w st).trace) = true
      rw [precededBy_append (fun e he => ⟨hpc e he, (isEngineLevel_false (hpre e he)).2.1⟩)]
      exact f2
    · intro eng job img he
      rw [hm] at he
      have he2 : Event.enqueue eng job img ∈ pre ++ (mainEngine w st).trace := he
      rcases List.mem_append.mp he2 with h1 | h1
      · have := hpre _ h1
        simp [Event.isEngineLevel] at this
      · have := f4 eng job img h1
        subst this
        exact ⟨st.config, hmemc⟩
    · rw [hm]
      show noneAfter _ _ (pre ++ (mainEngine w st).trace) = true
      rw [noneAfter_append (fun e he => (isEngineLevel_false (hpre e he)).2.2.1)]
      exact f3

/-- C7, an instance: on two readable PGM files the engine is constructed
once and receives the image of `a.pgm`, then the image of `b.pgm`. -/
theorem engine_constructed_once_before_enqueue_witness :
    (main pgmWorld [.left "a.pgm", .right "b.pgm"]).1.filter Event.isConstruct =
        [.construct 0 pgmWorld.defaultConfig .MatchingMode] ∧
      (main pgmWorld [.left "a.pgm", .right "b.pgm"]).1.filter Event.isEnqueue =
        [.enqueue 0 0 { w := 2, h := 3, data := [10, 20, 30, 40, 50, 60] },
         .enqueue 0 1 { w := 1, h := 2, data := [7, 9] }] :=
  ⟨(engine_constructed_once_before_enqueue pgmWorld [.left "a.pgm", .right "b.pgm"]).2.1
      { config := pgmWorld.defaultConfig, lFile := "a.pgm", rFile := "b.pgm", flags := {} }
      rfl (by decide) (by decide),
    (engine_constructed_once_before_enqueue pgmWorld
        [.left "a.pgm", .right "b.pgm"]).2.2.2.2.2.2
      { config := pgmWorld.defaultConfig, lFile := "a.pgm", rFile := "b.pgm", flags := {} }
      _ _ rfl (by decide) (by decide) (by decide) (by decide)⟩

/-- C8: let `parseargs` return, with `l` and `r` the values of `--left` and
`--right`, let both input checks pass and let both files load, as `imgL` and
`imgR`.  Then the operations on jobs are, in this order: the enqueue of
`imgL` (job 0), the enqueue of `imgR` (job 1), `getDev` of job 0, `getDev` of
job 1, and the match of the left feature collection with the right one. -/
theorem job_ops_order (w : World) (args : List Arg) (st : PState) (l r : String)
    (imgL imgR : Image)
    (hparse : (parseargs w args (initialState w)).ctl = .ok st)
    (hl : Arg.left l ∈ args) (hr : Arg.right r ∈ args)
    (hcheckL : w.passes l = true) (hcheckR : w.passes r = true)
    (hloadL : w.image st.flags l = some imgL) (hloadR : w.image st.flags r = some imgR) :
    (main w args).1.filter Event.isJobOp =
      [.enqueue 0 0 imgL, .enqueue 0 1 imgR, .getDev (some 0), .getDev (some 1),
        .matchFeatures 0 1] := by
  have hp : parseargs w args (initialState w) =
      ⟨(parseargs w args (initialState w)).trace, .ok st⟩ := by
    rw [← hparse]
  obtain ⟨hul, hur⟩ := parseargs_ok_unique hp
  have hl2 := hul l hl
  have hr2 := hur r hr
  subst hl2 hr2
  obtain ⟨hpre, hmain⟩ := main_of_pass hparse hcheckL hcheckR
  rw [hmain]
  show (_ ++ (mainEngine w st).trace).filter Event.isJobOp = _
  rw [filter_append_of_none (fun e he => (isEngineLevel_false (hpre e he).1).2.2.2.2.2.1),
    (mainEngine_job_ops hloadL hloadR).1]

/-- C8, an instance: `a.pgm` is the left file and holds the 2 x 3 image,
`b.pgm` is the right file and holds the 1 x 2 image. -/
theorem job_ops_order_witness :
    (main pgmWorld [.left "a.pgm", .right "b.pgm"]).1.filter Event.isJobOp =
      [.enqueue 0 0 { w := 2, h := 3, data := [10, 20, 30, 40, 50, 60] },
       .enqueue 0 1 { w := 1, h := 2, data := [7, 9] },
       .getDev (some 0), .getDev (some 1), .matchFeatures 0 1] :=
  job_ops_order pgmWorld [.left "a.pgm", .right "b.pgm"]
    { config := pgmWorld.defaultConfig, lFile := "a.pgm", rFile := "b.pgm", flags := {} }
    "a.pgm" "b.pgm" _ _ rfl (by decide) (by decide) (by decide) (by decide)
    (by decide) (by decide)

/-- C9: a run that reaches the match call ends with the match, the release of
the left feature collection, the release of the right one and `uninit`, in
this order and with nothing after; no match, release or `uninit` happens
earlier; and `main` returns `EXIT_SUCCESS`. -/
theorem teardown_after_match (w : World) (args : List Arg)
    (hmatch : ∃ l r, Event.matchFeatures l r ∈ (main w args).1) :
    (main w args).2 = .returned EXIT_SUCCESS ∧ (main w args).2.isSuccess = true ∧
    ∃ pre, (main w args).1 =
        pre ++ [.matchFeatures 0 1, .release 0, .release 1, .uninit 0] ∧
      ∀ e ∈ pre, e.isMatch = false ∧ e.isRelease = false ∧ e.isUninit = false := by
  obtain ⟨l, r, hmatch⟩ := hmatch
  rcases main_shape w args with h | ⟨st, pre, -, -, -, hpre, hm⟩
  · have := h _ hmatch
    simp [Event.isEngineLevel] at this
  · rw [hm] at hmatch
    have hmem : Event.matchFeatures l r ∈ pre ++ (mainEngine w st).trace := hmatch
    rcases List.mem_append.mp hmem with h1 | h1
    · have := hpre _ h1
      simp [Event.isEngineLevel] at this
    · obtain ⟨pre2, heq, hpre2⟩ := mainEngine_match ⟨l, r, h1⟩
      rw [hm, heq]
      refine ⟨rfl, rfl, pre ++ pre2, by simp, ?_⟩
      intro e he
      rcases List.mem_append.mp he with h2 | h2
      · have := isEngineLevel_false (hpre e h2)
        exact ⟨this.2.2.2.1, this.2.2.2.2.1, this.2.2.1⟩
      · exact hpre2 e h2

/-- C9, an instance: two readable PGM files. -/
theorem teardown_after_match_witness :
    (main pgmWorld [.left "a.pgm", .right "b.pgm"]).2 = .returned EXIT_SUCCESS ∧
      (main pgmWorld [.left "a.pgm", .right "b.pgm"]).2.isSuccess = true ∧
      ∃ pre, (main pgmWorld [.left "a.pgm", .right "b.pgm"]).1 =
          pre ++ [.matchFeatures 0 1, .release 0, .release 1, .uninit 0] ∧
        ∀ e ∈ pre, e.isMatch = false ∧ e.isRelease = false ∧ e.isUninit = false :=
  teardown_after_match pgmWorld [.left "a.pgm", .right "b.pgm"] ⟨0, 1, by decide⟩

/-- C10: with only `--left L` and `--right R` on the command line (in either
order) `parseargs` returns normally without output, `lFile` is `L`, `rFile`
is `R`, the configuration is untouched (no setter call, `octaves` and
`levels` as before) and the five flags are false. -/
theorem parseargs_only_left_right (w : World) (L R : String) (st : PState) :
    parseargs w [.left L, .right R] st =
        ⟨[], .ok { config := st.config, lFile := L, rFile := R,
                   flags := { print_dev_info := false, print_time_info := false,
                              write_as_uchar := false, dont_write := false,
                              pgmread_loading := false } }⟩ ∧
    parseargs w [.right R, .left L] st =
        ⟨[], .ok { config := st.config, lFile := L, rFile := R,
                   flags := { print_dev_info := false, print_time_info := false,
                              write_as_uchar := false, dont_write := false,
                              pgmread_loading := false } }⟩ :=
  ⟨rfl, rfl⟩

end LiteSift

